import Mathlib

set_option maxRecDepth 10000

/-!
Verification of the local AI request-router pipeline against its
natural-language specification.  The JavaScript sources are shallowly
embedded: pure functions become Lean functions on `String` / `List Char`
with JS numbers idealized as exact rationals (`ℚ`); JS regular-expression
tests are embedded as explicit decidable scanners over character lists;
host primitives that cannot be embedded exactly (`Date.parse`, `Math.sqrt`
on IEEE doubles, the number-to-string formatter) are passed as explicit
function parameters.
-/

namespace BAAI

/-! ## Shared string infrastructure -/

namespace Str

/-- JS whitespace (`\s`), restricted to the ASCII characters that occur in
the embedded inputs. -/
def isJsWs (c : Char) : Bool :=
  c = ' ' || c = '\t' || c = '\n' || c = '\r' || c = '\x0b' || c = '\x0c'

/-- JS word character (`\w` = `[A-Za-z0-9_]`). -/
def isWordChar (c : Char) : Bool :=
  ('a' ≤ c && c ≤ 'z') || ('A' ≤ c && c ≤ 'Z') || ('0' ≤ c && c ≤ '9') || c = '_'

def isDigitChar (c : Char) : Bool :=
  '0' ≤ c && c ≤ '9'

/-- ASCII lower-casing, the fragment of `String.prototype.toLowerCase`
exercised by the sources. -/
def lowerChar (c : Char) : Char :=
  if 'A' ≤ c && c ≤ 'Z' then Char.ofNat (c.toNat + 32) else c

def lowerStr (s : String) : String :=
  ⟨s.data.map lowerChar⟩

/-- `String.prototype.trim` (JS whitespace at both ends). -/
def jsTrimList (cs : List Char) : List Char :=
  ((cs.dropWhile isJsWs).reverse.dropWhile isJsWs).reverse

def jsTrim (s : String) : String :=
  ⟨jsTrimList s.data⟩

/-- Does `needle` occur (as a contiguous sublist) in `hay`?  This is the
embedding of a JS `String.prototype.includes` / anchor-free literal regex
test. -/
def containsSub (hay needle : List Char) : Bool :=
  hay.tails.any (fun t => needle.isPrefixOf t)

def containsStr (hay needle : String) : Bool :=
  containsSub hay.data needle.data

/-- Case-insensitive containment (`/literal/i.test`). -/
def containsCI (hay needle : String) : Bool :=
  containsSub (hay.data.map lowerChar) (needle.data.map lowerChar)

/-- One scanning step of a word-boundary search: `prev` is the character
just before the scan position (`none` at the start of the string). -/
def boundaryBefore (prev : Option Char) : Bool :=
  match prev with
  | none => true
  | some c => !isWordChar c

/-- After matching `n` characters from position `cs`, is there a word
boundary (end of string or a non-word character)? -/
def boundaryAfter (cs : List Char) (n : Nat) : Bool :=
  match (cs.drop n).head? with
  | none => true
  | some c => !isWordChar c

/-- Search for `needle` with `\b` on both sides (`/\bneedle\b/`). -/
def containsWordAux (needle : List Char) : Option Char → List Char → Bool
  | _, [] => false
  | prev, c :: rest =>
    (boundaryBefore prev && needle.isPrefixOf (c :: rest)
      && boundaryAfter (c :: rest) needle.length)
    || containsWordAux needle (some c) rest

/-- `/\bw\b/.test hay` for a literal word `w` (which must start and end
with word characters, as all the embedded patterns do). -/
def containsWord (hay w : String) : Bool :=
  containsWordAux w.data none hay.data

/-- `/\bw\b/i.test hay`. -/
def containsWordCI (hay w : String) : Bool :=
  containsWord (lowerStr hay) (lowerStr w)

/-- Any of the words, with word boundaries (`/\b(w1|w2|...)\b/`). -/
def containsAnyWord (hay : String) (ws : List String) : Bool :=
  ws.any (containsWord hay)

def containsAnyWordCI (hay : String) (ws : List String) : Bool :=
  ws.any (containsWordCI hay)

/-- `/^(w1|w2|...)\b/.test hay`: one of the words as a prefix followed by a
word boundary. -/
def startsWithWordAny (hay : String) (ws : List String) : Bool :=
  ws.any (fun w => w.data.isPrefixOf hay.data && boundaryAfter hay.data w.data.length)

/-- Does the string contain a decimal digit (`/\d/.test`)? -/
def hasDigit (s : String) : Bool :=
  s.data.any isDigitChar

/-- Count of non-overlapping, leftmost occurrences of the literal pattern
`pat` in `hay`: the embedding of `(hay.match(new RegExp(escaped, "g")) || []).length`
for an escaped literal.  The scan advances past each match. -/
def countOccurAux (pat : List Char) : List Char → Nat → Nat → Nat
  | [], _, acc => acc
  | c :: rest, skip, acc =>
    match skip with
    | n + 1 => countOccurAux pat rest n acc
    | 0 =>
      if pat.isPrefixOf (c :: rest) && pat ≠ [] then
        countOccurAux pat rest (pat.length - 1) (acc + 1)
      else
        countOccurAux pat rest 0 acc

def countOccur (hay pat : List Char) : Nat :=
  countOccurAux pat hay 0 0

/-- Number of maximal runs matching `p` (the embedding of
`(s.match(/X+/g) || []).length` for a single-character class `X`). -/
def countRunsAux (p : Char → Bool) : List Char → Bool → Nat → Nat
  | [], _, acc => acc
  | c :: rest, inRun, acc =>
    if p c then
      countRunsAux p rest true (if inRun then acc else acc + 1)
    else
      countRunsAux p rest false acc

def countRuns (p : Char → Bool) (s : String) : Nat :=
  countRunsAux p s.data false 0

/-- Count of characters satisfying `p` (`(s.match(/[class]/g) || []).length`). -/
def countChars (p : Char → Bool) (s : String) : Nat :=
  (s.data.filter p).length

/-- The words of a string after splitting on whitespace runs and dropping
empty fragments (`s.split(/\s+/).filter(w => w.trim())`). -/
def wsWordsAux : List Char → List Char → List (List Char)
  | [], acc => if acc = [] then [] else [acc.reverse]
  | c :: rest, acc =>
    if isJsWs c then
      if acc = [] then wsWordsAux rest []
      else acc.reverse :: wsWordsAux rest []
    else
      wsWordsAux rest (c :: acc)

def wsWordCount (s : String) : Nat :=
  (wsWordsAux s.data []).length

/-- Split a string into its lines (JS `split('\n')`). -/
def splitLinesAux : List Char → List Char → List (List Char)
  | [], acc => [acc.reverse]
  | c :: rest, acc =>
    if c = '\n' then acc.reverse :: splitLinesAux rest []
    else splitLinesAux rest (c :: acc)

def splitLines (s : String) : List (List Char) :=
  splitLinesAux s.data []

/-- The numeric value of a digit run (`parseInt` / the integer part of
`Number`). -/
def natOfDigits (ds : List Char) : Nat :=
  ds.foldl (fun n c => n * 10 + (c.toNat - 48)) 0

/-- Search for a match of `p` starting at any position. -/
def scanAnyPos (p : List Char → Bool) : List Char → Bool
  | [] => false
  | c :: rest => p (c :: rest) || scanAnyPos p rest

/-- In multiline mode, `^` matches at the start of input and right after a
newline; `prev` is the character before the scan position. -/
def lineStartOk : Option Char → Bool
  | none => true
  | some c => c = '\n'

/-- Search for a match of `p` at a position where multiline `^` holds. -/
def scanLineStart (p : List Char → Bool) : Option Char → List Char → Bool
  | _, [] => false
  | prev, c :: rest =>
    (lineStartOk prev && p (c :: rest)) || scanLineStart p (some c) rest

/-- The character just before the end of `cs` when scanning forward from a
position whose predecessor is `prev0` (used to reason about scans over
concatenations). -/
def prevAfter (prev0 : Option Char) : List Char → Option Char
  | [] => prev0
  | c :: rest => prevAfter (some c) rest

end Str

/-! ## File-backed memory store (`part_000`)

Shallow embedding of the conversation-memory module: keyword extraction,
expiry, scoring and querying.  `Date.parse` and `Math.sqrt` are host
primitives and are passed in as explicit parameters. -/

namespace Mem

def MAX_ENTRIES : Nat := 500
def MIN_SCORE : ℚ := 2

def STOP_WORDS : List String :=
  ["a","an","and","are","as","at","be","by","for","from","has","have","how","i","if","in",
   "is","it","of","on","or","that","the","this","to","was","we","what","when","where","who",
   "why","will","with","you","your"]

/-- `normalize`: lower-case the text. -/
def normalize (text : String) : String :=
  Str.lowerStr text

/-- The character class kept by `clean`'s replacement in `tokenize`.  The
source regex is `/[^a-z0-9\\s]/g`, whose class is `a-z`, `0-9`, a literal
backslash (`\\`) and the letter `s`; every other character becomes a
space.  (Note: NOT `\s`, because the backslash is escaped.) -/
def keepChar (c : Char) : Bool :=
  ('a' ≤ c && c ≤ 'z') || ('0' ≤ c && c ≤ '9') || c = '\\'

def cleanChars (text : String) : List Char :=
  (normalize text).data.map (fun c => if keepChar c then c else ' ')

/-- Split on the source's `/\\s+/` delimiter: a literal backslash followed
by one or more letters `s` (again NOT whitespace). -/
def splitBackslashSAux : List Char → List Char → List (List Char)
  | [], acc => [acc.reverse]
  | c :: rest, acc =>
    if c = '\\' && rest.takeWhile (fun d => d = 's') ≠ [] then
      acc.reverse :: splitBackslashSAux (rest.dropWhile (fun d => d = 's')) []
    else
      splitBackslashSAux rest (c :: acc)
termination_by cs _ => cs.length
decreasing_by
  · have h : (rest.dropWhile (fun d => d = 's')).length ≤ rest.length :=
      (List.dropWhile_sublist _).length_le
    simp only [List.length_cons]
    omega
  · simp only [List.length_cons]
    omega

/-- `tokenize`: clean, split on `/\\s+/`, drop empty fragments. -/
def tokenize (text : String) : List String :=
  ((splitBackslashSAux (cleanChars text) []).filter (fun w => w ≠ [])).map
    (fun cs => ⟨cs⟩)

/-- `extractKeywords`: tokens of length ≥ 3 that are not stop words,
de-duplicated, first 40. -/
def extractKeywords (text : String) : List String :=
  (((tokenize text).filter
      (fun w => 3 ≤ w.length && !STOP_WORDS.contains w)).dedup).take 40

structure MemMeta where
  userId : Option String
  teamId : Option String
deriving DecidableEq, Repr

structure MemoryEntry where
  id : String
  prompt : String
  response : String
  keywords : List String
  embedding : Option (List ℚ)
  meta : MemMeta
  createdAt : String
  expiresAt : Option String
deriving DecidableEq, Repr

/-- `isExpired`, parameterized by the host `Date.parse` (returning `none`
for `NaN`) and the current time `now`.  A missing or empty `expiresAt` is
falsy; an unparsable one is treated as not expired. -/
def isExpired (dateParse : String → Option Int) (now : Int)
    (entry : MemoryEntry) : Bool :=
  match entry.expiresAt with
  | none => false
  | some s =>
    if s = "" then false
    else
      match dateParse s with
      | none => false
      | some t => now > t

/-- `cosineSimilarity`, parameterized by the host `Math.sqrt`. -/
def cosineSimilarity (sqrt : ℚ → ℚ) (a b : List ℚ) : ℚ :=
  if a.length ≠ b.length then 0
  else
    let dot := ((a.zip b).map (fun p => p.1 * p.2)).sum
    let normA := (a.map (fun x => x * x)).sum
    let normB := (b.map (fun x => x * x)).sum
    if normA = 0 || normB = 0 then 0
    else dot / (sqrt normA * sqrt normB)

/-- `saveMemory` persists `entries.slice(-MAX_ENTRIES)` (the tail). -/
def saveMemory (entries : List MemoryEntry) : List MemoryEntry :=
  entries.drop (entries.length - MAX_ENTRIES)

/-- `pruneExpiredEntries`. -/
def pruneExpiredEntries (dateParse : String → Option Int) (now : Int)
    (entries : List MemoryEntry) : List MemoryEntry :=
  entries.filter (fun e => !isExpired dateParse now e)

structure QueryOpts where
  userId : Option String
  teamMode : Bool
  teamId : Option String
  embedding : Option (List ℚ)
  embeddingWeight : Option ℚ
deriving Repr

/-- `scoreEntry`: keyword-overlap count plus (optionally) the
embedding-weighted cosine similarity.  `options.embeddingWeight || 2`
falls back to 2 for a missing or zero weight. -/
def scoreEntry (sqrt : ℚ → ℚ) (entry : MemoryEntry) (queryTokens : List String)
    (opts : QueryOpts) : ℚ :=
  let kwScore : ℚ :=
    ((queryTokens.filter (fun t => entry.keywords.contains t)).length : ℚ)
  match opts.embedding, entry.embedding with
  | some q, some v =>
    let w := match opts.embeddingWeight with
      | none => (2 : ℚ)
      | some w => if w = 0 then 2 else w
    kwScore + cosineSimilarity sqrt q v * w
  | _, _ => kwScore

/-- `filterEntriesForUser`. -/
def filterEntriesForUser (entries : List MemoryEntry) (userId : Option String)
    (teamMode : Bool) (teamId : Option String) : List MemoryEntry :=
  if teamMode then
    match teamId with
    | some t => entries.filter (fun e => e.meta.teamId = some t)
    | none => entries
  else
    match userId with
    | none => entries
    | some u => entries.filter (fun e => e.meta.userId = some u)

/-- Descending insertion sort by score, the embedding of the JS
`sort((a, b) => b.score - a.score)`. -/
def insertByScore (p : MemoryEntry × ℚ) :
    List (MemoryEntry × ℚ) → List (MemoryEntry × ℚ)
  | [] => [p]
  | q :: rest => if q.2 < p.2 then p :: q :: rest else q :: insertByScore p rest

def sortByScoreDesc : List (MemoryEntry × ℚ) → List (MemoryEntry × ℚ)
  | [] => []
  | p :: rest => insertByScore p (sortByScoreDesc rest)

/-- `queryMemoryEntries`. -/
def queryMemoryEntries (sqrt : ℚ → ℚ) (dateParse : String → Option Int)
    (now : Int) (entries : List MemoryEntry) (query : String) (limit : Nat)
    (opts : QueryOpts) : List MemoryEntry :=
  let tokens := extractKeywords query
  if tokens.isEmpty then []
  else
    let inScope :=
      (filterEntriesForUser entries opts.userId opts.teamMode opts.teamId).filter
        (fun e => !isExpired dateParse now e)
    let scored := inScope.map (fun e => (e, scoreEntry sqrt e tokens opts))
    let kept := scored.filter (fun p => MIN_SCORE ≤ p.2)
    ((sortByScoreDesc kept).take limit).map (fun p => p.1)

end Mem

/-! ## Response cache (`responseCache.js`) and in-process cache (`part_001`)

Both caches are insertion-ordered maps bounded at 500 entries with
oldest-first eviction.  A JS `Map` is embedded as an association list in
insertion order: `set` of an existing key updates in place, `set` of a new
key appends, `delete` removes by key. -/

namespace RC

def MAX_CACHE_SIZE : Nat := 500

/-- JS `Map.prototype.set`. -/
def jsMapSet {α : Type} (m : List (String × α)) (k : String) (v : α) :
    List (String × α) :=
  if m.any (fun p => p.1 = k) then
    m.map (fun p => if p.1 = k then (k, v) else p)
  else
    m ++ [(k, v)]

/-- JS `Map.prototype.delete`. -/
def jsMapDelete {α : Type} (m : List (String × α)) (k : String) :
    List (String × α) :=
  m.filter (fun p => p.1 ≠ k)

/-- A `response_cache.json` item (`setCachedResponse`). -/
structure CacheItem where
  response : String
  timestamp : Int
  embedding : Option (List ℚ)
  intent : String
deriving Repr

/-- `setCachedResponse`: evict the oldest entry (the first key) when the
cache is full, then insert. -/
def setCachedResponse (cache : List (String × CacheItem)) (cacheKey : String)
    (item : CacheItem) : List (String × CacheItem) :=
  let cache :=
    if MAX_CACHE_SIZE ≤ cache.length then
      match cache.head? with
      | some (k, _) => jsMapDelete cache k
      | none => cache
    else cache
  jsMapSet cache cacheKey item

/-- An in-process `responseCache` entry (`storeInCache` in the server). -/
structure StoreVal where
  value : String
  timestamp : Int
  ttl : Int
deriving Repr

def MAX_CACHE_ENTRIES : Nat := 500

/-- `storeInCache`: same bounded-map discipline for the in-process cache. -/
def storeInCache (cache : List (String × StoreVal)) (key : String)
    (v : StoreVal) : List (String × StoreVal) :=
  let cache :=
    if MAX_CACHE_ENTRIES ≤ cache.length then
      match cache.head? with
      | some (k, _) => jsMapDelete cache k
      | none => cache
    else cache
  jsMapSet cache key v

end RC

/-! ## Sandbox safety prechecks (`reasoningEngine.js`)

`runPython`, `runJavaScript` and `runTypeScript` validate the code string
before spawning any child process: missing code, an over-long code string,
and — in safe mode — a denylist of regular expressions.  The embedding
models exactly this pre-execution validation; its result `none` means the
function proceeds to execute the code. -/

namespace RE

def MAX_CODE_CHARS : Nat := 12000

/-- `/\bw1\s+w2\b/i` tested at one position (both strings lower-cased by
the caller). -/
def wordWsWordAt (w1 w2 : List Char) (cs : List Char) : Bool :=
  w1.isPrefixOf cs &&
  (let rest := cs.drop w1.length
   match rest with
   | [] => false
   | c :: _ =>
     Str.isJsWs c && w2.isPrefixOf (rest.dropWhile Str.isJsWs)
       && Str.boundaryAfter (rest.dropWhile Str.isJsWs) w2.length)

/-- `/\bw\./i` tested at one position. -/
def wordDotAt (w : List Char) (cs : List Char) : Bool :=
  w.isPrefixOf cs && (cs.drop w.length).head? = some '.'

/-- `/\bw\s*\(/i` tested at one position. -/
def wordWsLparenAt (w : List Char) (cs : List Char) : Bool :=
  w.isPrefixOf cs && ((cs.drop w.length).dropWhile Str.isJsWs).head? = some '('

/-- Scan every position whose predecessor is a word boundary. -/
def scanBoundary (p : List Char → Bool) : Option Char → List Char → Bool
  | _, [] => false
  | prev, c :: rest =>
    (Str.boundaryBefore prev && p (c :: rest)) || scanBoundary p (some c) rest

def testWordWsWord (code : String) (w1 w2 : String) : Bool :=
  scanBoundary (wordWsWordAt (Str.lowerStr w1).data (Str.lowerStr w2).data)
    none (Str.lowerStr code).data

def testWordDot (code : String) (w : String) : Bool :=
  scanBoundary (wordDotAt (Str.lowerStr w).data) none (Str.lowerStr code).data

def testWordWsLparen (code : String) (w : String) : Bool :=
  scanBoundary (wordWsLparenAt (Str.lowerStr w).data) none
    (Str.lowerStr code).data

/-- `BLOCKED_PYTHON_PATTERNS`: does any of the twelve denylist regexes
match the code? -/
def pythonBlocked (code : String) : Bool :=
  testWordWsWord code "import" "os" || testWordWsWord code "import" "sys"
  || testWordWsWord code "import" "subprocess"
  || testWordWsWord code "import" "socket"
  || testWordWsWord code "import" "requests"
  || testWordWsWord code "from" "os" || testWordWsWord code "from" "sys"
  || testWordDot code "subprocess" || testWordDot code "socket"
  || testWordWsLparen code "open" || testWordWsLparen code "eval"
  || testWordWsLparen code "exec"

def BLOCKED_JS_WORDS : List String :=
  ["require", "process", "child_process", "fs", "net", "http", "https",
   "spawn", "exec"]

/-- `BLOCKED_JS_PATTERNS`: each entry is `/\bword\b/i`. -/
def jsBlocked (code : String) : Bool :=
  Str.containsAnyWordCI code BLOCKED_JS_WORDS

inductive ToolErr where
  | missingCode
  | tooLarge
  | denylisted
deriving DecidableEq, Repr

/-- The pre-execution validation of `runPython`: missing code, size bound,
then `assertPythonSafe` (which throws only in safe mode). -/
def runPythonPrecheck (code : String) (safeMode : Bool) (maxChars : Nat) :
    Option ToolErr :=
  if Str.jsTrim code = "" then some .missingCode
  else if maxChars < code.length then some .tooLarge
  else if safeMode && pythonBlocked code then some .denylisted
  else none

/-- The pre-execution validation of `runJavaScript`
(`assertJavaScriptSafe`). -/
def runJavaScriptPrecheck (code : String) (safeMode : Bool)
    (maxChars : Nat) : Option ToolErr :=
  if Str.jsTrim code = "" then some .missingCode
  else if maxChars < code.length then some .tooLarge
  else if safeMode && jsBlocked code then some .denylisted
  else none

/-- The pre-execution validation of `runTypeScript` (identical checks,
including `assertJavaScriptSafe`). -/
def runTypeScriptPrecheck (code : String) (safeMode : Bool)
    (maxChars : Nat) : Option ToolErr :=
  if Str.jsTrim code = "" then some .missingCode
  else if maxChars < code.length then some .tooLarge
  else if safeMode && jsBlocked code then some .denylisted
  else none

end RE

/-! ## Response formatter (`ResponseFormatter` in `part_001`)

`formatResponse` classifies raw text as chart / table / ranking / list /
text, in that order, via regex shape tests.  The JSON parse inside the
chart extractor is a host primitive and is abstracted as a `chartOk`
parameter (whether `extractAndFormatChart` succeeds); the "flexible"
ranking regex and the prose warhead-count extraction are likewise passed
in as parameters (`flexibleMatches`, `proseCount`) — the claims under
test never depend on them.  The strict rank pattern
`/^(\d+)[\.\)]\s+(.+?):\s*(.+?)$/gm` is modelled for single-line items
(its `\s+`/`\s*` never crossing a newline), which is its behavior on all
line-structured inputs considered here. -/

namespace Fmt

structure RankItem where
  rank : Nat
  name : String
  value : String
deriving DecidableEq, Repr

inductive Formatted where
  | text
  | chart
  | table (headers : List String) (rows : List (List String))
  | ranking (items : List RankItem)
  | listForm (items : List String)
deriving DecidableEq, Repr

/-- Split on a single character (JS `String.prototype.split` with a
one-character separator). -/
def splitOnCharAux (d : Char) : List Char → List Char → List (List Char)
  | [], acc => [acc.reverse]
  | c :: rest, acc =>
    if c = d then acc.reverse :: splitOnCharAux d rest []
    else splitOnCharAux d rest (c :: acc)

def splitOnChar (d : Char) (cs : List Char) : List (List Char) :=
  splitOnCharAux d cs []

def splitLines (s : String) : List (List Char) :=
  splitOnChar '\n' s.data

/-- All ways of writing a list as `front ++ back`. -/
def splits : List Char → List (List Char × List Char)
  | [] => [([], [])]
  | c :: rest => ([], c :: rest) :: (splits rest).map (fun ab => (c :: ab.1, ab.2))

/-- Is there a split `front ++ back` with `p front` and `q back`?  (Used to
embed regex existence semantics for variable-length pieces.) -/
def anySplitPair (p q : List Char → Bool) (cs : List Char) : Bool :=
  (splits cs).any (fun ab => p ab.1 && q ab.2)

/-- `/CHART_JSON\s*:/i.test`. -/
def hasChartPattern (text : String) : Bool :=
  Str.scanAnyPos
    (fun cs => "chart_json".data.isPrefixOf cs
      && ((cs.drop 10).dropWhile Str.isJsWs).head? = some ':')
    (Str.lowerStr text).data

/-- Is there a `:` followed (on the same line) by a digit? -/
def colonDigitSameLine (cs : List Char) : Bool :=
  Str.scanAnyPos
    (fun t => match t with
      | ':' :: r => r.any Str.isDigitChar
      | _ => false)
    (cs.takeWhile (fun c => c ≠ '\n'))

/-- `/\d+\.\s+\w+.*:.*\d+/` at one position. -/
def numDotColonDigitAt (cs : List Char) : Bool :=
  let d := cs.takeWhile Str.isDigitChar
  d ≠ [] &&
  (match cs.drop d.length with
   | '.' :: rest1 =>
     let w := rest1.takeWhile Str.isJsWs
     w ≠ [] &&
     (match rest1.drop w.length with
      | c :: rest2 => Str.isWordChar c && colonDigitSameLine rest2
      | [] => false)
   | _ => false)

/-- `hasTablePattern`: a line with two pipes, or a numbered
`name: value`-with-digit row (`/\|.*\|/m || /\d+\.\s+\w+.*:.*\d+/m`). -/
def hasTablePattern (text : String) : Bool :=
  (splitLines text).any (fun l => 2 ≤ (l.filter (fun c => c = '|')).length)
  || Str.scanAnyPos numDotColonDigitAt text.data

/-- `\s*[2-9][\.\)]\s+.+?` (the tail of the second enumerated item in the
explicit-ranking regex). -/
def secondItemTail (cs : List Char) : Bool :=
  match cs.dropWhile Str.isJsWs with
  | c2 :: s2 :: rest2 =>
    ('2' ≤ c2 && c2 ≤ '9') && (s2 = '.' || s2 = ')') &&
    anySplitPair (fun w => w ≠ [] && w.all Str.isJsWs)
      (fun x => match x with
        | c :: _ => c ≠ '\n'
        | [] => false)
      rest2
  | _ => false

/-- `(?:\n|,|\s+(?:and|or))` then the second item. -/
def sepThenSecond (cs : List Char) : Bool :=
  (match cs with
   | '\n' :: r => secondItemTail r
   | ',' :: r => secondItemTail r
   | _ => false) ||
  anySplitPair (fun w => w ≠ [] && w.all Str.isJsWs)
    (fun r => ("and".data.isPrefixOf r && secondItemTail (r.drop 3))
      || ("or".data.isPrefixOf r && secondItemTail (r.drop 2)))
    cs

/-- `[1-9][\.\)]\s+.+?(sep second){1,}` at one position (the explicit
numbered-ranking regex, on the lower-cased text; `\b` is checked by the
scanner). -/
def rankChainAt (cs : List Char) : Bool :=
  match cs with
  | c1 :: s1 :: rest =>
    ('1' ≤ c1 && c1 ≤ '9') && (s1 = '.' || s1 = ')') &&
    anySplitPair (fun w => w ≠ [] && w.all Str.isJsWs)
      (fun cs2 => anySplitPair
        (fun x => x ≠ [] && x.all (fun c => c ≠ '\n'))
        sepThenSecond cs2)
      rest
  | _ => false

def rankNumberedTest (text : String) : Bool :=
  RE.scanBoundary rankChainAt none (Str.lowerStr text).data

def RANK_KEYWORDS : List String :=
  ["rank", "ranking", "top", "leader", "first", "second", "third",
   "leading", "follows", "rank"]

/-- `/\b(rank|ranking|top|...)/i` — leading boundary only. -/
def hasRankKeywords (text : String) : Bool :=
  RE.scanBoundary
    (fun cs => RANK_KEYWORDS.any (fun w => w.data.isPrefixOf cs)) none
    (Str.lowerStr text).data

def COUNTRY_WORDS : List String :=
  ["United States", "Russia", "China", "France", "UK", "India", "Pakistan",
   "Israel", "Germany", "Japan", "Brazil"]

def hasCountries (text : String) : Bool :=
  Str.containsAnyWordCI text COUNTRY_WORDS

def WARHEAD_WORDS : List String :=
  ["warhead", "nuclear", "arsenal", "inventory", "weapon", "bomb"]

/-- `/\b\d+\s*(warhead|nuclear|arsenal|inventory|weapon|bomb)/i`. -/
def hasNumbers (text : String) : Bool :=
  RE.scanBoundary
    (fun cs =>
      let d := cs.takeWhile Str.isDigitChar
      d ≠ [] &&
      (let r := (cs.drop d.length).dropWhile Str.isJsWs
       WARHEAD_WORDS.any (fun w => w.data.isPrefixOf r)))
    none (Str.lowerStr text).data

/-- `hasRankingPattern`. -/
def hasRankingPattern (text : String) : Bool :=
  rankNumberedTest text
  || (hasRankKeywords text && (hasCountries text || hasNumbers text))

/-- `/^\d+[\.\)]\s+/m` at a line start. -/
def numMarkerAt (cs : List Char) : Bool :=
  let d := cs.takeWhile Str.isDigitChar
  d ≠ [] &&
  (match cs.drop d.length with
   | c :: rest => (c = '.' || c = ')') && rest.takeWhile Str.isJsWs ≠ []
   | [] => false)

/-- `/^[-•*]\s+/m` at a line start. -/
def bulletMarkerAt (cs : List Char) : Bool :=
  match cs with
  | c :: rest => (c = '-' || c = '•' || c = '*') && rest.takeWhile Str.isJsWs ≠ []
  | [] => false

/-- `hasListPattern`. -/
def hasListPattern (text : String) : Bool :=
  Str.scanLineStart numMarkerAt none text.data
  || Str.scanLineStart bulletMarkerAt none text.data

/-- `extractAndFormatTable`: pipe-separated rows only; without any pipe
row the extractor falls back to plain text. -/
def extractAndFormatTable (text : String) : Formatted :=
  let lines := (splitLines text).filter (fun l => Str.jsTrimList l ≠ [])
  let tableData := lines.filterMap (fun l =>
    if l.any (fun c => c = '|') then
      let cells := ((splitOnChar '|' l).map Str.jsTrimList).filter
        (fun c => c ≠ [])
      if 2 ≤ cells.length then
        some (cells.map (fun c => (⟨c⟩ : String)))
      else none
    else none)
  match tableData with
  | [] => .text
  | h :: t => .table h t

/-- Find the first `:` in `cs` with at least one character before it and
at least one after it; return the pieces (the lazy `(.+?):` /
`(.+?)$` split of the strict rank pattern on a single line). -/
def findColonSplitAux (pre : List Char) : List Char → Option (List Char × List Char)
  | [] => none
  | ':' :: rest =>
    if pre ≠ [] && rest ≠ [] then some (pre.reverse, rest)
    else findColonSplitAux (':' :: pre) rest
  | c :: rest => findColonSplitAux (c :: pre) rest

/-- One line of the strict rank pattern
`/^(\d+)[\.\)]\s+(.+?):\s*(.+?)$/gm`: rank digits, `.` or `)`, at least
one whitespace, a non-empty name up to the first usable colon, and a
non-empty remainder; name and value are trimmed as the extractor does. -/
def strictRankLine (line : List Char) : Option RankItem :=
  let d := line.takeWhile Str.isDigitChar
  if d = [] then none
  else
    match line.drop d.length with
    | sep :: rest1 =>
      if sep = '.' || sep = ')' then
        let w := rest1.takeWhile Str.isJsWs
        if w = [] then none
        else
          match findColonSplitAux [] (rest1.drop w.length) with
          | some (n, v) =>
            some ⟨Str.natOfDigits d, ⟨Str.jsTrimList n⟩, ⟨Str.jsTrimList v⟩⟩
          | none => none
      else none
    | [] => none

/-- The pipe-separated fallback (`Rank | Name | Value`). -/
def pipeRankings (text : String) : List RankItem :=
  (splitLines text).filterMap (fun l =>
    if l.any (fun c => c = '|') then
      let parts := (splitOnChar '|' l).map Str.jsTrimList
      match parts with
      | p0 :: p1rest =>
        if 2 ≤ parts.length
            && (match p0 with
                | c :: _ => Str.isDigitChar c
                | [] => false) then
          let rank := Str.natOfDigits (p0.takeWhile Str.isDigitChar)
          if rank ≤ 100 then
            some ⟨rank, ⟨p1rest.headD []⟩,
              String.intercalate " - "
                ((p1rest.drop 1).map (fun c => (⟨c⟩ : String)))⟩
          else none
        else none
      | [] => none
    else none)

def countryOrder : List String :=
  ["United States", "Russia", "China", "France", "United Kingdom", "India",
   "Pakistan", "Israel", "Germany", "Japan", "Brazil", "North Korea"]

/-- `extractProseRankings`; `proseCount text country` abstracts the
warhead-count regex capture. -/
def proseRankingsAux (proseCount : String → String → Option String)
    (text : String) : List String → Nat → List RankItem
  | [], _ => []
  | c :: rest, rank =>
    if Str.containsStr text c then
      let value := match proseCount text c with
        | some num => "~" ++ num ++ " warheads"
        | none => "Nuclear-armed state"
      if 10 < rank + 1 then [⟨rank, c, value⟩]
      else ⟨rank, c, value⟩ :: proseRankingsAux proseCount text rest (rank + 1)
    else proseRankingsAux proseCount text rest rank

def proseRankings (proseCount : String → String → Option String)
    (text : String) : List RankItem :=
  proseRankingsAux proseCount text countryOrder 1

/-- Stable ascending insertion by rank (`sort((a, b) => a.rank - b.rank)`). -/
def insertRank (x : RankItem) : List RankItem → List RankItem
  | [] => [x]
  | y :: rest => if x.rank ≤ y.rank then x :: y :: rest else y :: insertRank x rest

def sortByRank : List RankItem → List RankItem
  | [] => []
  | x :: rest => insertRank x (sortByRank rest)

/-- `extractAndFormatRanking`: strict pattern, then the flexible pattern
(abstracted as `flexibleMatches`, with the source's `rank <= 20` guard),
then pipe rows, then prose mentions; plain text when all fail. -/
def extractAndFormatRanking (flexibleMatches : String → List RankItem)
    (proseCount : String → String → Option String) (text : String) :
    Formatted :=
  match (splitLines text).filterMap strictRankLine with
  | r :: rs => .ranking (sortByRank (r :: rs))
  | [] =>
    match (flexibleMatches text).filter (fun t => t.rank ≤ 20) with
    | r :: rs => .ranking (sortByRank (r :: rs))
    | [] =>
      match pipeRankings text with
      | r :: rs => .ranking (sortByRank (r :: rs))
      | [] =>
        match proseRankings proseCount text with
        | r :: rs => .ranking (sortByRank (r :: rs))
        | [] => .text

/-- Strip a leading list marker
(`line.replace(/^[\d]+[\.\)]\s+|^[-•*]\s+/, '')`). -/
def stripListMarker (l : List Char) : List Char :=
  let d := l.takeWhile Str.isDigitChar
  if d ≠ [] then
    match l.drop d.length with
    | c :: rest =>
      if (c = '.' || c = ')') && rest.takeWhile Str.isJsWs ≠ [] then
        rest.dropWhile Str.isJsWs
      else l
    | [] => l
  else
    match l with
    | c :: rest =>
      if (c = '-' || c = '•' || c = '*') && rest.takeWhile Str.isJsWs ≠ [] then
        rest.dropWhile Str.isJsWs
      else l
    | [] => l

/-- `extractAndFormatList`. -/
def extractAndFormatList (text : String) : Formatted :=
  let lines := (splitLines text).filter (fun l => Str.jsTrimList l ≠ [])
  let items := lines.filterMap (fun l =>
    let cleaned := Str.jsTrimList (stripListMarker l)
    if cleaned ≠ [] then some ((⟨cleaned⟩ : String)) else none)
  match items with
  | [] => .text
  | h :: t => .listForm (h :: t)

/-- `formatResponse`: chart, then table, then ranking, then list, then
text.  `chartOk` abstracts whether `extractAndFormatChart` succeeds
(`CHART_JSON` marker with parseable data). -/
def formatResponse (chartOk : String → Bool)
    (flexibleMatches : String → List RankItem)
    (proseCount : String → String → Option String) (text : String) :
    Formatted :=
  if hasChartPattern text && chartOk text then .chart
  else if hasTablePattern text then extractAndFormatTable text
  else if hasRankingPattern text then
    extractAndFormatRanking flexibleMatches proseCount text
  else if hasListPattern text then extractAndFormatList text
  else .text

end Fmt

/-! ## Intent classifier scoring loop (`intentClassifier.js`)

The per-pattern scoring of `classifyIntent`: each catalog pattern is
regex-escaped into a literal and counted case-insensitively against the
lower-cased prompt; the contribution is capped, with a special branch for
MATH_REASONING's "how many"/"how much" when the prompt contains a digit.
The loop is embedded parameterized by the intent's pattern list and the
results of the advanced check and context comparisons. -/

namespace IC

/-- One pattern's contribution to an intent's score
(`score += Math.min(..)` branches of the scoring loop). -/
def patternContribution (intentType pattern prompt : String) : Nat :=
  let matchCount := Str.countOccur (Str.lowerStr prompt).data
    (Str.lowerStr pattern).data
  if intentType = "MATH_REASONING"
      && (pattern = "how many" || pattern = "how much") then
    if Str.hasDigit prompt then min 3 (matchCount * 2)
    else min 2 matchCount
  else min 2 matchCount

/-- The whole per-intent score: pattern contributions, +5 for a successful
`advancedCheck`, +1 for a matching `previousIntent`, +2 for a matching
`userPreference`, −5 for an excluded intent, clamped at 0
(`scores[intentType] = Math.max(0, score)`). -/
def intentScore (patterns : List String) (intentType prompt : String)
    (advancedHit : Bool) (previousIntent userPreference : Option String)
    (excludeIntents : List String) : Int :=
  let base : Int :=
    ((patterns.map (fun p => patternContribution intentType p prompt)).sum : Nat)
  let s := base + (if advancedHit then 5 else 0)
    + (if previousIntent = some intentType then 1 else 0)
    + (if userPreference = some intentType then 2 else 0)
    - (if excludeIntents.contains intentType then 5 else 0)
  max 0 s

end IC

/-! ## Streamed generation: fallback and retry (`part_001` ws handler)

The try/catch around `runGeneration` is embedded as a pure function of the
attempted model, the fallback model, and the outcomes of the (at most two)
attempts.  An attempt outcome carries the error name and message when it
throws; `tN` is the token text streamed by attempt `N`.  The emitted
websocket events are collected in order; a result of `none` means the
handler re-throws (the request fails). -/

namespace Srv

/-- `memoryErrorRegex = /requires more system memory|not enough memory|out of memory/i`. -/
def memoryErrorRegexTest (msg : String) : Bool :=
  Str.containsCI msg "requires more system memory"
  || Str.containsCI msg "not enough memory"
  || Str.containsCI msg "out of memory"

def reasoningIntents : List String :=
  ["MATH_REASONING", "PROOF_SOLVING", "SYSTEM_DESIGN", "MULTI_STEP",
   "FORMULA_GENERATION"]

/-- `calculateMathComplexity` (the source also computes an operator count
but never uses it in the decision). -/
def calculateMathComplexity (prompt intent : String) : Option String :=
  if intent ≠ "MATH_REASONING" then none
  else
    let wordCount := Str.wsWordCount prompt
    let sentenceCount :=
      Str.countChars (fun c => c = '.' || c = '!' || c = '?') prompt
    let numberCount := Str.countRuns Str.isDigitChar prompt
    if wordCount ≤ 10 && sentenceCount = 0 && numberCount ≤ 5 then
      some "TRIVIAL"
    else if wordCount ≤ 35 && sentenceCount ≤ 2 && numberCount ≤ 4 then
      some "SIMPLE"
    else some "COMPLEX"

/-- The deterministic fallback model chosen from intent (and, for
MATH_REASONING, from the computed complexity). -/
def fallbackModel (intent prompt : String) : String :=
  if intent = "MATH_REASONING" then
    let mc := calculateMathComplexity prompt intent
    if mc = some "TRIVIAL" || mc = some "SIMPLE" then "gemma:2b" else "qwen3"
  else if intent = "CODE_TASK" || intent = "CODE_REVIEW" then
    "deepseek-coder-v2"
  else if reasoningIntents.contains intent then "qwen3"
  else "llama3.2"

/-- Per-attempt deadline: the reasoning model has none
(`model === "deepseek-r1" ? 0 : routingConfig.modelTimeoutMs || 0`). -/
def attemptTimeoutMs (model : String) (configTimeoutMs : Nat) : Nat :=
  if model = "deepseek-r1" then 0 else configTimeoutMs

inductive AttemptResult where
  | ok
  | err (name msg : String)
deriving DecidableEq, Repr

inductive GenEvent where
  | model_fallback (fromModel toModel reason : String)
  | model_retry_start (fromModel toModel reason : String)
  | model_retry_done (model : String)
  | model_retry_failed (model reason : String)
deriving DecidableEq, Repr

/-- The retry logic of the ws streaming handler.  On the first attempt's
failure, a single retry with the fallback model happens only for
`deepseek-r1` (memory-pressure error or abort); the retry resets the
accumulated token buffer, so a successful result carries `t2` alone.  A
failure of the second attempt propagates (result `none`): it is terminal. -/
def wsGenerate (usedModel fb : String) (a1 : AttemptResult) (t1 : String)
    (a2 : AttemptResult) (t2 : String) :
    List GenEvent × Option (String × String) :=
  match a1 with
  | .ok => ([], some (usedModel, t1))
  | .err name msg =>
    if usedModel = "deepseek-r1" && memoryErrorRegexTest msg then
      match a2 with
      | .ok =>
        ([.model_fallback usedModel fb "insufficient_memory",
          .model_retry_start usedModel fb "insufficient_memory",
          .model_retry_done fb], some (fb, t2))
      | .err _ _ =>
        ([.model_fallback usedModel fb "insufficient_memory",
          .model_retry_start usedModel fb "insufficient_memory"], none)
    else if usedModel = "deepseek-r1" && name = "AbortError" then
      match a2 with
      | .ok =>
        ([.model_fallback usedModel fb "timeout",
          .model_retry_start usedModel fb "timeout",
          .model_retry_done fb], some (fb, t2))
      | .err _ _ =>
        ([.model_fallback usedModel fb "timeout",
          .model_retry_start usedModel fb "timeout"], none)
    else if name = "AbortError" then
      ([.model_retry_failed usedModel "timeout"], none)
    else
      ([], none)

/-- Is an event a `model_retry_start`? -/
def isRetryStart : GenEvent → Bool
  | .model_retry_start _ _ _ => true
  | _ => false

/-! ### Ranking validation block (`validateRankingResponse` and the
`isRankingIntent` post-processing in the ws handler). -/

/-- `\s*<d>\.\s+` at one position (the body of `/^\s*d\.\s+/m` after the
anchor). -/
def wsNumDotWsAt (d : Char) (cs : List Char) : Bool :=
  match cs.dropWhile Str.isJsWs with
  | c1 :: c2 :: c3 :: _ => c1 = d && c2 = '.' && Str.isJsWs c3
  | _ => false

/-- `/^\s*d\.\s+/m.test`. -/
def testLineNumDot (s : String) (d : Char) : Bool :=
  Str.scanLineStart (wsNumDotWsAt d) none s.data

/-- `[\d+]` at one position. -/
def citationAt (cs : List Char) : Bool :=
  match cs with
  | '[' :: rest =>
    rest.takeWhile Str.isDigitChar ≠ []
      && (rest.dropWhile Str.isDigitChar).head? = some ']'
  | _ => false

/-- `/\[\d+\]/.test`. -/
def hasCitation (s : String) : Bool :=
  Str.scanAnyPos citationAt s.data

/-- `validateRankingResponse`: a `1.` line and a `2.` line (with optional
leading whitespace) plus at least one `[n]` citation. -/
def validateRankingResponse (text : String) : Bool :=
  testLineNumDot text '1' && testLineNumDot text '2' && hasCitation text

/-- The length of a `/^\s*\d+\.\s+/` match at one position (anchor already
checked by the caller), or `none`. -/
def matchItemLen (cs : List Char) : Option Nat :=
  let a := cs.takeWhile Str.isJsWs
  let rest1 := cs.drop a.length
  let d := rest1.takeWhile Str.isDigitChar
  if d = [] then none
  else
    match rest1.drop d.length with
    | '.' :: rest2 =>
      let w := rest2.takeWhile Str.isJsWs
      if w = [] then none else some (a.length + d.length + 1 + w.length)
    | _ => none

/-- Count the matches of the global multiline regex `/^\s*\d+\.\s+/gm`:
each match must start at a line-start position at or after the previous
match's end; `skip` counts the characters left inside the current match. -/
def countItemsAux : Option Char → List Char → Nat → Nat → Nat
  | _, [], _, acc => acc
  | prev, c :: rest, skip, acc =>
    match skip with
    | n + 1 => countItemsAux (some c) rest n acc
    | 0 =>
      match Str.lineStartOk prev, matchItemLen (c :: rest) with
      | true, some len => countItemsAux (some c) rest (len - 1) (acc + 1)
      | _, _ => countItemsAux (some c) rest 0 acc

/-- `countRankingItems`. -/
def countRankingItems (text : String) : Nat :=
  countItemsAux none text.data 0 0

/-- `/\btop\s*10\b/i` at one position (on the lower-cased prompt). -/
def top10At (cs : List Char) : Bool :=
  ("top".data.isPrefixOf cs) &&
  (let r := (cs.drop 3).dropWhile Str.isJsWs
   "10".data.isPrefixOf r && Str.boundaryAfter r 2)

/-- `/\btop\s*10\b/i.test prompt`. -/
def topTenTest (prompt : String) : Bool :=
  RE.scanBoundary top10At none (Str.lowerStr prompt).data

def STOCK_NO_SOURCES : String :=
  "Thinking\n- (omitted by request)\n\nResult\n- I couldn\x27t find reliable web sources for a ranked list. Please try again or provide a source."

def STOCK_NO_LIST : String :=
  "Thinking\n- (omitted by request)\n\nResult\n- I couldn\x27t build a reliable ranked list from the available sources."

/-- The honest "only N items" notice prepended for under-filled top-10
answers. -/
def onlyNPrefix (count : Nat) : String :=
  "Thinking\n- (omitted by request)\n\nResult\n- I could only find reliable information for "
    ++ toString count ++ " items based on the available sources.\n\n"

/-- The ranking branch of the ws handler after generation: `webSources` is
`none` when not an array; `regen` is the outcome of the single
`callOllamaGenerate` regeneration (`none` models a thrown error, in which
case the original text is kept). -/
def rankingPostProcess (webSources : Option (List String))
    (responseText : String) (regen : Option String) (prompt : String) :
    String :=
  match webSources with
  | none => STOCK_NO_SOURCES
  | some [] => STOCK_NO_SOURCES
  | some (_ :: _) =>
    let r1 :=
      if validateRankingResponse responseText then responseText
      else
        match regen with
        | some t => t
        | none => responseText
    let r2 := if validateRankingResponse r1 then r1 else STOCK_NO_LIST
    let count := countRankingItems r2
    if 0 < count && count < 10 && topTenTest prompt then
      onlyNPrefix count ++ r2
    else r2

end Srv

/-! ## Safe arithmetic evaluator (`part_001`)

`safeEvaluateExpression` is a shunting-yard evaluator over the character
class `[\d\s+\-*/().]`.  JS doubles are idealized as exact rationals with
an explicit NaN (`JsNum`); `Number.isFinite` holds exactly of the `num`
values.  Tokens are the source's strings, kept as `List Char`.

The specification side is the canonical grammar
`E := T ((+|-) T)*`, `T := F ((*|/) F)*`, `F := numeral | ( E )`
with left associativity, evaluated by `evalExpr`; per the spec's
parenthetical, a leading `-` and a `-` right after `(` denote unary minus
read as `0 - x`, which is `expandUnaryMinus` (the same two rewrites the
source applies to the whitespace-stripped string). -/

namespace Arith

/-- JS numbers idealized as exact rationals plus NaN.  (IEEE rounding and
overflow to infinity are outside this model.) -/
inductive JsNum where
  | num (q : ℚ)
  | nan
deriving DecidableEq, Repr

def isFinite : JsNum → Bool
  | .num _ => true
  | .nan => false

def jsAdd : JsNum → JsNum → JsNum
  | .num a, .num b => .num (a + b)
  | _, _ => .nan

def jsSub : JsNum → JsNum → JsNum
  | .num a, .num b => .num (a - b)
  | _, _ => .nan

def jsMul : JsNum → JsNum → JsNum
  | .num a, .num b => .num (a * b)
  | _, _ => .nan

/-- Division as pushed by `evalRpn`: `b === 0 ? NaN : a / b`. -/
def jsDiv : JsNum → JsNum → JsNum
  | .num a, .num b => if b = 0 then .nan else .num (a / b)
  | _, _ => .nan

/-- `[0-9.]`. -/
def isNumChar (c : Char) : Bool :=
  Str.isDigitChar c || c = '.'

def isOpChar (c : Char) : Bool :=
  c = '+' || c = '-' || c = '*' || c = '/' || c = '(' || c = ')'

/-- The character class of `/^[\d\s+\-*/().]+$/`. -/
def isClassChar (c : Char) : Bool :=
  Str.isDigitChar c || Str.isJsWs c || c = '+' || c = '-' || c = '*'
  || c = '/' || c = '(' || c = ')' || c = '.'

/-- Is `Number(token)` not NaN, for the tokens the tokenizer produces
(digit/dot runs and single operator characters)? -/
def tokIsNum (t : List Char) : Bool :=
  (t.filter (fun c => c = '.')).length ≤ 1 && t.any Str.isDigitChar

/-- The exact value of a valid numeral token (`Number` on a digit/dot
string, exact in the rational idealization). -/
def ratOfNumeral (t : List Char) : ℚ :=
  let ip := t.takeWhile (fun c => c ≠ '.')
  let fp := (t.drop ip.length).drop 1
  (Str.natOfDigits ip : ℚ) + (Str.natOfDigits fp : ℚ) / (10 : ℚ) ^ fp.length

/-- `tokenizeExpression`: maximal digit/dot runs and single operator
characters; any other character fails.  `pend` is the numeral run being
read, reversed. -/
def tokenizeAux : List Char → List Char → Option (List (List Char))
  | pend, [] => some (if pend = [] then [] else [pend.reverse])
  | pend, c :: rest =>
    if isNumChar c then tokenizeAux (c :: pend) rest
    else if isOpChar c then
      match tokenizeAux [] rest with
      | some ts =>
        some ((if pend = [] then [[c]] else [pend.reverse, [c]]) ++ ts)
      | none => none
    else none

def tokenizeExpression (cs : List Char) : Option (List (List Char)) :=
  tokenizeAux [] cs

def isOpTok (t : List Char) : Bool :=
  t = ['+'] || t = ['-'] || t = ['*'] || t = ['/']

def prec (t : List Char) : Nat :=
  if t = ['+'] || t = ['-'] then 1 else 2

/-- The `')'` handler: pop operators to the output until `(`. -/
def popToLparen : List (List Char) → List (List Char) →
    Option (List (List Char) × List (List Char))
  | [], _ => none
  | s :: rest, out =>
    if s = ['('] then some (rest, out) else popToLparen rest (out ++ [s])

/-- The operator handler: pop while the top is an operator of greater or
equal precedence. -/
def popGePrec (t : List Char) : List (List Char) → List (List Char) →
    List (List Char) × List (List Char)
  | [], out => ([], out)
  | s :: rest, out =>
    if isOpTok s && prec t ≤ prec s then popGePrec t rest (out ++ [s])
    else (s :: rest, out)

/-- The final flush: pop everything; a leftover parenthesis fails. -/
def flushAll : List (List Char) → List (List Char) →
    Option (List (List Char))
  | [], out => some out
  | s :: rest, out =>
    if s = ['('] || s = [')'] then none else flushAll rest (out ++ [s])

/-- `toRpn` (shunting yard). -/
def toRpnAux : List (List Char) → List (List Char) → List (List Char) →
    Option (List (List Char))
  | [], stack, out => flushAll stack out
  | t :: rest, stack, out =>
    if tokIsNum t then toRpnAux rest stack (out ++ [t])
    else if t = ['('] then toRpnAux rest (['('] :: stack) out
    else if t = [')'] then
      match popToLparen stack out with
      | some (stack', out') => toRpnAux rest stack' out'
      | none => none
    else if isOpTok t then
      let so := popGePrec t stack out
      toRpnAux rest (t :: so.1) so.2
    else none

def toRpn (tokens : List (List Char)) : Option (List (List Char)) :=
  toRpnAux tokens [] []

/-- `evalRpn`: operands are checked finite before each operation (a pop
from a short stack is JS `undefined`, which is not finite). -/
def evalRpnAux : List (List Char) → List JsNum → Option JsNum
  | [], [v] => some v
  | [], _ => none
  | t :: rest, stack =>
    if tokIsNum t then evalRpnAux rest (JsNum.num (ratOfNumeral t) :: stack)
    else
      match stack with
      | b :: a :: stack' =>
        if !isFinite a || !isFinite b then none
        else if t = ['+'] then evalRpnAux rest (jsAdd a b :: stack')
        else if t = ['-'] then evalRpnAux rest (jsSub a b :: stack')
        else if t = ['*'] then evalRpnAux rest (jsMul a b :: stack')
        else if t = ['/'] then
          evalRpnAux rest
            ((if b = JsNum.num 0 then JsNum.nan else jsDiv a b) :: stack')
        else none
      | _ => none

def evalRpn (rpn : List (List Char)) : Option JsNum :=
  evalRpnAux rpn []

/-- The global rewrite of every `(` `-` pair into `(` `0` `-`
(the source's second unary-minus rewrite). -/
def replaceParenMinus : List Char → List Char
  | '(' :: '-' :: rest => '(' :: '0' :: '-' :: replaceParenMinus rest
  | c :: rest => c :: replaceParenMinus rest
  | [] => []

/-- The source's unary-minus preprocessing of the whitespace-stripped
string — and, on the specification side, the reading of the spec's
parenthetical: a leading `-` and a `-` immediately after `(` stand for
unary minus, written `0 - x`. -/
def expandUnaryMinus (cs : List Char) : List Char :=
  replaceParenMinus (if cs.head? = some '-' then '0' :: cs else cs)

/-- `safeEvaluateExpression`. -/
def safeEvaluateExpression (expr : String) : Option ℚ :=
  let raw := Str.jsTrim expr
  if raw = "" then none
  else if !(raw.data.all isClassChar) then none
  else
    let normalized := expandUnaryMinus (raw.data.filter (fun c => !Str.isJsWs c))
    match tokenizeExpression normalized with
    | none => none
    | some tokens =>
      match toRpn tokens with
      | none => none
      | some rpn =>
        match evalRpn rpn with
        | some (JsNum.num q) => some q
        | _ => none

/-- `simpleArithmeticSolver`; `fmt` is the host number-to-string
conversion used in the answer template. -/
def simpleArithmeticSolver (fmt : ℚ → String) (prompt : String) :
    Option String :=
  let cleaned := Str.jsTrim prompt
  if cleaned = "" then none
  else if !(cleaned.data.all isClassChar) then none
  else
    match safeEvaluateExpression cleaned with
    | none => none
    | some r =>
      some ("Thinking\n- (omitted by request)\n\nResult\n- "
        ++ (⟨cleaned.data.filter (fun c => !Str.isJsWs c)⟩ : String)
        ++ " = " ++ fmt r)

/-! ### Specification side: the canonical expression grammar. -/

inductive Expr where
  | lit (s : List Char)
  | add (a b : Expr)
  | sub (a b : Expr)
  | mul (a b : Expr)
  | div (a b : Expr)
deriving DecidableEq, Repr

/-- The canonical tree's value, mirroring the evaluator's arithmetic:
NaN propagates and division by zero is NaN. -/
def evalExpr : Expr → JsNum
  | .lit s => JsNum.num (ratOfNumeral s)
  | .add a b => jsAdd (evalExpr a) (evalExpr b)
  | .sub a b => jsSub (evalExpr a) (evalExpr b)
  | .mul a b => jsMul (evalExpr a) (evalExpr b)
  | .div a b =>
    match evalExpr a, evalExpr b with
    | JsNum.num qa, JsNum.num qb =>
      if qb = 0 then JsNum.nan else JsNum.num (qa / qb)
    | _, _ => JsNum.nan

mutual

/-- `F := numeral | ( E )`. -/
def parseF : Nat → List (List Char) → Option (Expr × List (List Char))
  | 0, _ => none
  | n + 1, ts =>
    match ts with
    | t :: rest =>
      if tokIsNum t then some (.lit t, rest)
      else if t = ['('] then
        match parseE n rest with
        | some (e, t' :: rest') =>
          if t' = [')'] then some (e, rest') else none
        | _ => none
      else none
    | [] => none

/-- `T := F ((*|/) F)*`, left associative. -/
def parseT : Nat → List (List Char) → Option (Expr × List (List Char))
  | 0, _ => none
  | n + 1, ts =>
    match parseF n ts with
    | some (f, rest) => parseTChain n f rest
    | none => none

def parseTChain : Nat → Expr → List (List Char) →
    Option (Expr × List (List Char))
  | 0, _, _ => none
  | n + 1, acc, ts =>
    match ts with
    | t :: rest =>
      if t = ['*'] then
        match parseF n rest with
        | some (f, rest') => parseTChain n (.mul acc f) rest'
        | none => none
      else if t = ['/'] then
        match parseF n rest with
        | some (f, rest') => parseTChain n (.div acc f) rest'
        | none => none
      else some (acc, t :: rest)
    | [] => some (acc, [])

/-- `E := T ((+|-) T)*`, left associative. -/
def parseE : Nat → List (List Char) → Option (Expr × List (List Char))
  | 0, _ => none
  | n + 1, ts =>
    match parseT n ts with
    | some (tm, rest) => parseEChain n tm rest
    | none => none

def parseEChain : Nat → Expr → List (List Char) →
    Option (Expr × List (List Char))
  | 0, _, _ => none
  | n + 1, acc, ts =>
    match ts with
    | t :: rest =>
      if t = ['+'] then
        match parseT n rest with
        | some (tm, rest') => parseEChain n (.add acc tm) rest'
        | none => none
      else if t = ['-'] then
        match parseT n rest with
        | some (tm, rest') => parseEChain n (.sub acc tm) rest'
        | none => none
      else some (acc, t :: rest)
    | [] => some (acc, [])

end

/-- The canonical parse of a (whitespace-free, unary-minus-expanded)
expression string: tokenize, parse a full `E`, require all input
consumed. -/
def specParse (cs : List Char) : Option Expr :=
  match tokenizeExpression cs with
  | some ts =>
    match parseE (4 * ts.length + 4) ts with
    | some (e, []) => some e
    | _ => none
  | none => none

/-- The postorder (RPN) serialization of a canonical tree. -/
def rpnOfExpr : Expr → List (List Char)
  | .lit s => [s]
  | .add a b => rpnOfExpr a ++ rpnOfExpr b ++ [['+']]
  | .sub a b => rpnOfExpr a ++ rpnOfExpr b ++ [['-']]
  | .mul a b => rpnOfExpr a ++ rpnOfExpr b ++ [['*']]
  | .div a b => rpnOfExpr a ++ rpnOfExpr b ++ [['/']]

/-- All numeral leaves are valid numeral tokens (as the parser
guarantees). -/
def litsOk : Expr → Bool
  | .lit s => tokIsNum s
  | .add a b => litsOk a && litsOk b
  | .sub a b => litsOk a && litsOk b
  | .mul a b => litsOk a && litsOk b
  | .div a b => litsOk a && litsOk b

/-- Is the tree a division that itself pushes NaN (finite numerator
value, zero denominator value)?  Only such a tree leaves NaN on the
evaluator's stack; any deeper NaN aborts the evaluation. -/
def topZeroDiv : Expr → Bool
  | .div a b => isFinite (evalExpr a) && evalExpr b = JsNum.num 0
  | _ => false

/-- Stack shapes under which a term (`T`) is translated: the top is
nothing the `*`/`/` handler would pop. -/
def stackTOK : List (List Char) → Bool
  | [] => true
  | s :: _ => s = ['('] || s = ['+'] || s = ['-']

/-- Stack shapes under which an expression (`E`) is translated: the top
is nothing any operator handler would pop. -/
def stackEOK : List (List Char) → Bool
  | [] => true
  | s :: _ => s = ['(']

/-- The pending operators a term leaves on the stack: at most one
multiplicative operator. -/
def mulPend : List (List Char) → Bool
  | [] => true
  | p :: rest => (p = ['*'] || p = ['/']) && rest = []

/-- The pending operators an expression leaves on the stack: all
operator tokens. -/
def opsPend (pend : List (List Char)) : Bool :=
  pend.all isOpTok

end Arith

/-! ### A small backtracking engine for the JS regexes of the local
solver guards.  Alternatives are tried left to right and repetition is
greedy (longest first), matching the JS engine's backtracking order;
`\s` is embedded as the whitespace class used throughout this file and
`.` as "not a line terminator". -/

namespace Rx

/-- Pattern syntax: character classes, literals, greedy `?`, `+`/`*`
over classes, alternation, sequencing, and numbered capture groups
(numbered as in the JS pattern being embedded). -/
inductive Re where
  | eps
  | cls (p : Char → Bool)
  | lit (s : List Char)
  | seq (a b : Re)
  | alt (a b : Re)
  | opt (a : Re)
  | plus (p : Char → Bool)
  | star (p : Char → Bool)
  | grp (i : Nat) (a : Re)

/-- The remainders after consuming a greedy class run: longest
consumption first (the backtracking order of `p*`). -/
def starSplits (p : Char → Bool) : List Char → List (List Char)
  | [] => [[]]
  | c :: rest =>
    if p c then starSplits p rest ++ [c :: rest]
    else [c :: rest]

/-- All ways to match a prefix of `s`, in backtracking priority order:
each result is the remainder and the captures made on that path. -/
def reRun : Re → List Char → List (List Char × List (Nat × List Char))
  | .eps, s => [(s, [])]
  | .cls _, [] => []
  | .cls p, c :: rest => if p c then [(rest, [])] else []
  | .lit l, s => if l.isPrefixOf s then [(s.drop l.length, [])] else []
  | .seq a b, s =>
    (reRun a s).flatMap (fun pr =>
      (reRun b pr.1).map (fun qr => (qr.1, pr.2 ++ qr.2)))
  | .alt a b, s => reRun a s ++ reRun b s
  | .opt a, s => reRun a s ++ [(s, [])]
  | .plus p, s =>
    match s with
    | [] => []
    | c :: rest =>
      if p c then (starSplits p rest).map (fun r => (r, [])) else []
  | .star p, s => (starSplits p s).map (fun r => (r, []))
  | .grp i a, s =>
    (reRun a s).map (fun pr =>
      (pr.1, (i, s.take (s.length - pr.1.length)) :: pr.2))

/-- The leftmost match (`String.prototype.match` without `g`): try each
start position left to right, and at the first position with a match
return the highest-priority path's captures. -/
def reSearch (re : Re) : List Char → Option (List (Nat × List Char))
  | [] =>
    match reRun re [] with
    | pr :: _ => some pr.2
    | [] => none
  | c :: rest =>
    match reRun re (c :: rest) with
    | pr :: _ => some pr.2
    | [] => reSearch re rest

def reTest (re : Re) (s : List Char) : Bool :=
  (reSearch re s).isSome

/-- The first full match for an anchored `^...$` pattern, in
backtracking priority order. -/
def reFull (re : Re) (s : List Char) : Option (List (Nat × List Char)) :=
  (((reRun re s).filter (fun pr => pr.1 = [])).head?).map (fun pr => pr.2)

/-- Group `i` of a match (`none` = the group did not participate,
JS `undefined`). -/
def capOf (caps : List (Nat × List Char)) (i : Nat) : Option (List Char) :=
  ((caps.find? (fun pr => pr.1 = i))).map (fun pr => pr.2)

/-- `x|y|...|z`, left to right. -/
def altL : List Re → Re
  | [] => .eps
  | [r] => r
  | r :: rest => .alt r (altL rest)

def seqL : List Re → Re
  | [] => .eps
  | [r] => r
  | r :: rest => .seq r (seqL rest)

/-- A case-insensitive literal (the `/i` flag on a literal piece). -/
def litCI (s : List Char) : Re :=
  seqL (s.map (fun c => Re.cls (fun d => Str.lowerChar d = Str.lowerChar c)))

/-- `p{n}`: exactly `n` characters of a class. -/
def reN (p : Char → Bool) : Nat → Re
  | 0 => .eps
  | n + 1 => .seq (.cls p) (reN p n)

/-- `-?\d+(\.\d+)?` (its inner group is never read by the solvers). -/
def numRe : Re :=
  .seq (.opt (.lit ['-'])) (.seq (.plus Str.isDigitChar)
    (.opt (.seq (.lit ['.']) (.plus Str.isDigitChar))))

end Rx

/-! ### The local solver guards and the ws dispatch (`tryLocalSolvers`,
the vague-followup rewrite, `normalizeUserPrompt`, and the fast-path
checks).  `pd` is the host `Date` parser, `rc` the host "this regex
compiles" test, `tssm` the host-free but separately embedded
`trySolveSimpleMath` outcome; each is consulted only where the
corresponding source call sits. -/

namespace Srv

/-- Case-insensitive prefix test. -/
def ciPrefixOf (w : List Char) (s : List Char) : Bool :=
  w.isPrefixOf (s.map Str.lowerChar)

/-- The numeric value of a matched `-?\d+(\.\d+)?` token. -/
def jsNumOfCap (cap : List Char) : ℚ :=
  if cap.head? = some '-' then -(Arith.ratOfNumeral (cap.drop 1))
  else Arith.ratOfNumeral cap

def percentRe1 : Rx.Re :=
  Rx.seqL [Rx.numRe, .star Str.isJsWs, .opt (.lit ['%']), .star Str.isJsWs,
    .lit "of".data, .star Str.isJsWs, Rx.numRe]

def percentRe2 : Rx.Re :=
  Rx.seqL [Rx.numRe, .star Str.isJsWs,
    Rx.altL [.lit "increase".data, .lit "increased".data,
      .lit "increase by".data, .lit "up by".data],
    .star Str.isJsWs, Rx.numRe, .star Str.isJsWs, .lit ['%']]

def percentRe3 : Rx.Re :=
  Rx.seqL [Rx.numRe, .star Str.isJsWs,
    Rx.altL [.lit "decrease".data, .lit "decreased".data,
      .lit "decrease by".data, .lit "down by".data],
    .star Str.isJsWs, Rx.numRe, .star Str.isJsWs, .lit ['%']]

def percentRe4 : Rx.Re :=
  Rx.seqL [Rx.numRe, .plus Str.isJsWs, .lit "is".data, .plus Str.isJsWs,
    .lit "what".data, .plus Str.isJsWs, .lit "percent".data,
    .plus Str.isJsWs, .lit "of".data, .plus Str.isJsWs, .grp 3 Rx.numRe]

/-- `percentSolver` returns a non-null answer (the fourth branch also
needs a nonzero base: `base !== 0`). -/
def percentHits (p : String) : Bool :=
  let text := (Str.lowerStr p).data
  Rx.reTest percentRe1 text || Rx.reTest percentRe2 text
  || Rx.reTest percentRe3 text
  || (match Rx.reSearch percentRe4 text with
      | some caps =>
        match Rx.capOf caps 3 with
        | some c3 => decide (jsNumOfCap c3 ≠ 0)
        | none => false
      | none => false)

def unitRe : Rx.Re :=
  Rx.seqL [Rx.numRe, .star Str.isJsWs,
    .grp 3 (.plus (fun c => 'a' ≤ c && c ≤ 'z')), .star Str.isJsWs,
    Rx.altL [.lit "to".data, .lit "in".data], .star Str.isJsWs,
    .grp 5 (.plus (fun c => 'a' ≤ c && c ≤ 'z'))]

/-- `normalizeUnit`: lowercase and strip one trailing `s`. -/
def normalizeUnit (u : List Char) : List Char :=
  let l := u.map Str.lowerChar
  match l.getLast? with
  | some 's' => l.dropLast
  | _ => l

/-- The `unitMap` of `unitConversionSolver` (exact rationals). -/
def unitVal (u : String) : Option ℚ :=
  if u = "mm" then some (1 / 1000) else if u = "cm" then some (1 / 100)
  else if u = "m" then some 1 else if u = "km" then some 1000
  else if u = "inch" then some (254 / 10000) else if u = "in" then some (254 / 10000)
  else if u = "ft" then some (3048 / 10000) else if u = "foot" then some (3048 / 10000)
  else if u = "yard" then some (9144 / 10000) else if u = "yd" then some (9144 / 10000)
  else if u = "mile" then some (160934 / 100) else if u = "mi" then some (160934 / 100)
  else if u = "mg" then some (1 / 1000) else if u = "g" then some 1
  else if u = "kg" then some 1000 else if u = "lb" then some (453592 / 1000)
  else if u = "pound" then some (453592 / 1000)
  else if u = "sec" then some 1 else if u = "s" then some 1
  else if u = "min" then some 60 else if u = "minute" then some 60
  else if u = "hour" then some 3600 else if u = "hr" then some 3600
  else if u = "day" then some 86400
  else none

/-- `unitConversionSolver` returns a non-null answer: the leftmost match
of the conversion pattern with both units in the unit map. -/
def unitConversionHits (p : String) : Bool :=
  let text := (Str.lowerStr p).data
  match Rx.reSearch unitRe text with
  | some caps =>
    (match Rx.capOf caps 3, Rx.capOf caps 5 with
     | some c3, some c5 =>
       (unitVal ⟨normalizeUnit c3⟩).isSome && (unitVal ⟨normalizeUnit c5⟩).isSome
     | _, _ => false)
  | none => false

def dateRe : Rx.Re :=
  Rx.seqL [Rx.reN Str.isDigitChar 4, .lit ['-'], Rx.reN Str.isDigitChar 2,
    .lit ['-'], Rx.reN Str.isDigitChar 2]

def dateBetweenRe : Rx.Re :=
  Rx.seqL [.lit "days".data, .plus Str.isJsWs, .lit "between".data,
    .plus Str.isJsWs, .grp 1 dateRe, .plus Str.isJsWs, .lit "and".data,
    .plus Str.isJsWs, .grp 2 dateRe]

def bornRe : Rx.Re :=
  Rx.seqL [.lit "born".data, .plus Str.isJsWs, .lit "in".data,
    .plus Str.isJsWs, Rx.reN Str.isDigitChar 4]

/-- `dateMathSolver` returns a non-null answer: either a days-between
match whose two dates both parse, or a born-in match. -/
def dateMathHits (pd : String → Option Int) (p : String) : Bool :=
  let text := (Str.lowerStr p).data
  (match Rx.reSearch dateBetweenRe text with
   | some caps =>
     (match Rx.capOf caps 1, Rx.capOf caps 2 with
      | some c1, some c2 => (pd ⟨c1⟩).isSome && (pd ⟨c2⟩).isSome
      | _, _ => false)
   | none => false)
  || Rx.reTest bornRe text

def eqXRe : Rx.Re :=
  Rx.seqL [
    .grp 1 (Rx.seqL [.opt (.cls (fun c => c = '+' || c = '-')),
      .star Str.isDigitChar, .opt (.lit ['.']), .star Str.isDigitChar]),
    .cls (fun c => c = 'x' || c = 'X'),
    .opt (.grp 2 (Rx.seqL [.cls (fun c => c = '+' || c = '-'),
      .plus Str.isDigitChar, .opt (.seq (.lit ['.']) (.plus Str.isDigitChar))])),
    .lit ['='],
    Rx.seqL [.opt (.cls (fun c => c = '+' || c = '-')), .plus Str.isDigitChar,
      .opt (.seq (.lit ['.']) (.plus Str.isDigitChar))]]

def eqXRe2 : Rx.Re :=
  Rx.seqL [
    Rx.seqL [.opt (.cls (fun c => c = '+' || c = '-')), .plus Str.isDigitChar,
      .opt (.seq (.lit ['.']) (.plus Str.isDigitChar))],
    .lit ['='],
    .grp 3 (Rx.seqL [.opt (.cls (fun c => c = '+' || c = '-')),
      .star Str.isDigitChar, .opt (.lit ['.']), .star Str.isDigitChar]),
    .cls (fun c => c = 'x' || c = 'X'),
    .opt (Rx.seqL [.cls (fun c => c = '+' || c = '-'),
      .plus Str.isDigitChar, .opt (.seq (.lit ['.']) (.plus Str.isDigitChar))])]

/-- The `x` coefficient of `simpleEquationSolver`: `""`/`"+"` is 1,
`"-"` is -1, otherwise `Number(...)` (`none` = NaN). -/
def eqCoef (cap : List Char) : Option ℚ :=
  if cap = [] || cap = ['+'] then some 1
  else if cap = ['-'] then some (-1)
  else
    let body := if cap.head? = some '+' || cap.head? = some '-'
      then cap.drop 1 else cap
    if body.any Str.isDigitChar then
      some ((if cap.head? = some '-' then (-1 : ℚ) else 1)
        * Arith.ratOfNumeral body)
    else none

/-- `simpleEquationSolver` returns a non-null answer: a full anchored
match on the whitespace-stripped text whose coefficient is finite and
nonzero. -/
def simpleEquationHits (p : String) : Bool :=
  let stripped := p.data.filter (fun c => !Str.isJsWs c)
  (match Rx.reFull eqXRe stripped with
   | some caps =>
     (match Rx.capOf caps 1 with
      | some c1 =>
        (match eqCoef c1 with
         | some a => decide (a ≠ 0)
         | none => false)
      | none => false)
   | none => false)
  || (match Rx.reFull eqXRe2 stripped with
      | some caps =>
        (match Rx.capOf caps 3 with
         | some c3 =>
           (match eqCoef c3 with
            | some a => decide (a ≠ 0)
            | none => false)
         | none => false)
      | none => false)

def firstBracketRe : Rx.Re :=
  Rx.seqL [.lit ['['], .grp 1 (.plus (fun c => c ≠ ']')), .lit [']']]

/-- The source `parseNumberList` reads numbers from: the first `[...]`
group if present, else the whole prompt. -/
def statsSource (p : String) : List Char :=
  match Rx.reSearch firstBracketRe p.data with
  | some caps =>
    (match Rx.capOf caps 1 with
     | some c => c
     | none => p.data)
  | none => p.data

/-- `basicStatsSolver` returns a non-null answer: a stats keyword and a
nonempty parsed number list (equivalently, a digit in the source). -/
def basicStatsHits (p : String) : Bool :=
  Str.containsAnyWord (Str.lowerStr p)
    ["average", "mean", "median", "sum", "min", "max"]
  && (statsSource p).any Str.isDigitChar

/-- The global `\[[^\]]+\]` matches: leftmost, non-overlapping. -/
def bracketGroupsAux : Nat → List Char → List (List Char)
  | _, [] => []
  | Nat.succ k, _ :: rest => bracketGroupsAux k rest
  | 0, c :: rest =>
    if c = '[' then
      (let content := rest.takeWhile (fun d => d ≠ ']')
       if content ≠ [] && (rest.drop content.length).head? = some ']' then
         content :: bracketGroupsAux (content.length + 1) rest
       else bracketGroupsAux 0 rest)
    else bracketGroupsAux 0 rest

/-- `listSetSolver` returns a non-null answer: a set keyword and two
bracketed lists that each contain a number. -/
def listSetHits (p : String) : Bool :=
  Str.containsAnyWord (Str.lowerStr p) ["union", "intersection", "difference"]
  && (match bracketGroupsAux 0 p.data with
      | a :: b :: _ => a.any Str.isDigitChar && b.any Str.isDigitChar
      | _ => false)

def sortFilterRe : Rx.Re :=
  Rx.seqL [Rx.altL [.lit "remove".data, .lit "filter".data],
    .star (fun c => c ≠ '\n' && c ≠ '\r'),
    Rx.altL [.lit "<=".data, .lit ">=".data, .lit ['<'], .lit ['>']],
    .star Str.isJsWs, Rx.numRe]

/-- `sortFilterSolver` returns a non-null answer: a keyword, numbers,
and either "sort" as a substring or the remove/filter comparison. -/
def sortFilterHits (p : String) : Bool :=
  let lower := Str.lowerStr p
  Str.containsAnyWord lower ["sort", "remove", "filter"]
  && (statsSource p).any Str.isDigitChar
  && (Str.containsStr lower "sort" || Rx.reTest sortFilterRe lower.data)

/-- `stringUtilsSolver` returns a non-null answer exactly when one of
its six keywords is present (each branch then returns). -/
def stringUtilsHits (p : String) : Bool :=
  Str.containsAnyWord (Str.lowerStr p)
    ["uppercase", "lowercase", "titlecase", "length", "slugify", "trim"]

def emailRe : Rx.Re :=
  Rx.seqL [.plus (fun c => Str.isWordChar c || c = '.' || c = '+' || c = '-'),
    .lit ['@'], .plus (fun c => Str.isWordChar c || c = '.' || c = '-'),
    .lit ['.'],
    .cls (fun c => ('a' ≤ c && c ≤ 'z') || ('A' ≤ c && c ≤ 'Z')),
    .cls (fun c => ('a' ≤ c && c ≤ 'z') || ('A' ≤ c && c ≤ 'Z')),
    .star (fun c => ('a' ≤ c && c ≤ 'z') || ('A' ≤ c && c ≤ 'Z'))]

def urlRe : Rx.Re :=
  Rx.seqL [Rx.litCI "http".data, .opt (Rx.litCI ['s']), .lit ":".data,
    .lit "//".data, .plus (fun c => !Str.isJsWs c)]

/-- `validationSolver` returns a non-null answer: the word "valid" plus
an email-shaped or url-shaped fragment (either way it answers). -/
def validationHits (p : String) : Bool :=
  Str.containsWord (Str.lowerStr p) "valid"
  && (Rx.reTest emailRe p.data || Rx.reTest urlRe p.data)

def slashRe : Rx.Re :=
  Rx.seqL [.lit ['/'], .grp 1 (.plus (fun c => c ≠ '\n' && c ≠ '\r')),
    .lit ['/'],
    .grp 2 (.star (fun c => c = 'g' || c = 'i' || c = 'm' || c = 's'
      || c = 'u' || c = 'y'))]

def quoteRe : Rx.Re :=
  Rx.seqL [.cls (fun c => c = Char.ofNat 39 || c = '"' || c = Char.ofNat 96),
    .plus (fun c => !(c = Char.ofNat 39 || c = '"' || c = Char.ofNat 96)),
    .cls (fun c => c = Char.ofNat 39 || c = '"' || c = Char.ofNat 96)]

/-- `regexSolver` returns a non-null answer: a `/pattern/flags` piece, a
quoted input, and a pattern the host regex engine compiles (both the
match and no-match outcomes are answers). -/
def regexSolverHits (rc : String → String → Bool) (p : String) : Bool :=
  match Rx.reSearch slashRe p.data with
  | some caps =>
    (match Rx.capOf caps 1, Rx.capOf caps 2 with
     | some c1, some c2 => Rx.reTest quoteRe p.data && rc ⟨c1⟩ ⟨c2⟩
     | _, _ => false)
  | none => false

/-- `simpleArithmeticSolver` returns a non-null answer (independent of
the number formatting). -/
def simpleArithmeticHits (p : String) : Bool :=
  (Arith.simpleArithmeticSolver (fun _ => "") p).isSome

/-- `tryLocalSolvers`: the first solver, in source order, that returns a
non-null answer. -/
def tryLocalSolvers (pd : String → Option Int) (rc : String → String → Bool)
    (p : String) : Option String :=
  if simpleArithmeticHits p then some "simple_arithmetic"
  else if percentHits p then some "percent"
  else if unitConversionHits p then some "unit_conversion"
  else if dateMathHits pd p then some "date_math"
  else if simpleEquationHits p then some "simple_equation"
  else if basicStatsHits p then some "basic_stats"
  else if listSetHits p then some "list_set"
  else if sortFilterHits p then some "sort_filter"
  else if stringUtilsHits p then some "string_utils"
  else if validationHits p then some "validation"
  else if regexSolverHits rc p then some "regex"
  else none

/-- `isVagueFollowup`. -/
def isVagueFollowup (p : String) : Bool :=
  let text := Str.jsTrim (Str.lowerStr p)
  if text = "" then false
  else if text.data.length ≤ 12
      && Str.startsWithWordAny text ["why", "how", "explain", "clarify",
        "details", "detail", "more", "again", "repeat", "continue", "so"]
    then true
  else Str.containsAnyWord text ["explain", "why", "how", "more detail",
    "more details", "elaborate", "clarify", "expand", "tell me more",
    "more info", "more information", "details please", "explain more",
    "go on", "continue", "and then", "what about that", "what about it",
    "about that", "so what"]

/-- The position just after the first (case-insensitive) `Result`. -/
def resultFindAux : List Char → Option (List Char)
  | [] => none
  | c :: rest =>
    if ciPrefixOf "result".data (c :: rest) then some ((c :: rest).drop 6)
    else resultFindAux rest

/-- `extractResultSection`: everything after the first `Result` and its
trailing whitespace/colons, trimmed; the trimmed text when absent. -/
def extractResultSection (t : String) : String :=
  match resultFindAux t.data with
  | some after =>
    ⟨Str.jsTrimList (after.dropWhile (fun c => Str.isJsWs c || c = ':'))⟩
  | none => Str.jsTrim t

/-- One global, case-insensitive, word-bounded literal replacement
(`.replace(/\bw\b/gi, repl)`); the scan resumes after each match. -/
def replaceWordAux (w repl : List Char) : Option Char → Nat → List Char → List Char
  | _, _, [] => []
  | _, Nat.succ k, c :: rest => replaceWordAux w repl (some c) k rest
  | prev, 0, c :: rest =>
    if Str.boundaryBefore prev && ciPrefixOf w (c :: rest)
        && Str.boundaryAfter (c :: rest) w.length then
      repl ++ replaceWordAux w repl (some c) (w.length - 1) rest
    else c :: replaceWordAux w repl (some c) 0 rest

def replaceWord (w repl : List Char) (s : List Char) : List Char :=
  replaceWordAux w repl none 0 s

/-- The `\bbut\s+(\d+)` to `buy $1` replacement. -/
def butNumAux : Option Char → Nat → List Char → List Char
  | _, _, [] => []
  | _, Nat.succ k, c :: rest => butNumAux (some c) k rest
  | prev, 0, c :: rest =>
    if Str.boundaryBefore prev && ciPrefixOf "but".data (c :: rest) then
      (let after := (c :: rest).drop 3
       let wsRun := after.takeWhile Str.isJsWs
       let digs := (after.drop wsRun.length).takeWhile Str.isDigitChar
       if wsRun ≠ [] && digs ≠ [] then
         "buy ".data ++ digs
           ++ butNumAux (some c) (3 + wsRun.length + digs.length - 1) rest
       else c :: butNumAux (some c) 0 rest)
    else c :: butNumAux (some c) 0 rest

/-- The `\s{2,}` to `" "` collapse: a run of two or more whitespace
characters becomes one space; a single one is kept as is. -/
def collapseWsAux : Bool → List Char → List Char
  | _, [] => []
  | prevWs, c :: rest =>
    if Str.isJsWs c then
      (if prevWs then collapseWsAux true rest
       else
         match rest.head? with
         | some d =>
           if Str.isJsWs d then ' ' :: collapseWsAux true rest
           else c :: collapseWsAux true rest
         | none => c :: collapseWsAux true rest)
    else c :: collapseWsAux false rest

/-- `normalizeUserPrompt`: returns the normalized text and the `changed`
flag.  The `pls|plz` alternation is embedded as two successive
replacements, which agree with the single pass because neither
replacement creates or destroys a match of the other word. -/
def normalizeUserPrompt (p : String) : String × Bool :=
  if Str.jsTrim p = "" then (p, false)
  else if Str.containsStr p "```" then (p, false)
  else if (Str.jsTrim p).data.all (fun c =>
      Str.isJsWs c || Str.isDigitChar c || c = '+' || c = '-' || c = '*'
      || c = '/' || c = 'x' || c = 'X' || c = '(' || c = ')' || c = '.'
      || c = '%') then (p, false)
  else
    let n1 := replaceWord "but another".data "buy another".data p.data
    let n2 := butNumAux none 0 n1
    let n3 := replaceWord "loss".data "lost".data n2
    let n4 := replaceWord "borow".data "borrow".data n3
    let n5 := replaceWord "explan".data "explain".data n4
    let n6 := replaceWord "plz".data "please".data
      (replaceWord "pls".data "please".data n5)
    let n7 := replaceWord "thx".data "thanks".data n6
    let n8 := replaceWord "im".data "i am".data n7
    let n9 := replaceWord "whats".data "what\x27s".data n8
    let n10 := replaceWord "hw".data "how".data n9
    let collapsed := Str.jsTrimList (collapseWsAux false n10)
    (⟨collapsed⟩, decide (collapsed ≠ p.data))

/-- `isSmallTalkPrompt`. -/
def isSmallTalkPrompt (p : String) : Bool :=
  let text := Str.jsTrim (Str.lowerStr p)
  if text = "" then false
  else if 60 < text.data.length then false
  else
    Str.containsAnyWord text ["how are you", "how\x27s it going",
      "how is it going", "how do you do", "what\x27s up", "whats up",
      "sup", "how are u", "how r u"]
    || Str.containsAnyWord text ["good morning", "good afternoon",
      "good evening"]
    || Str.startsWithWordAny text ["hi", "hello", "hey"]

/-- Is one of `as`, then `\s+`, then one of `bs` with a trailing word
boundary, at this position? -/
def wordPairAt (as bs : List String) (s : List Char) : Bool :=
  as.any (fun a => a.data.isPrefixOf s &&
    (let r := s.drop a.data.length
     let wsn := (r.takeWhile Str.isJsWs).length
     decide (1 ≤ wsn) &&
     (let r2 := r.drop wsn
      bs.any (fun b => b.data.isPrefixOf r2
        && Str.boundaryAfter r2 b.data.length))))

def containsPairAux (as bs : List String) : Option Char → List Char → Bool
  | _, [] => false
  | prev, c :: rest =>
    (Str.boundaryBefore prev && wordPairAt as bs (c :: rest))
    || containsPairAux as bs (some c) rest

/-- `/\b(a1|a2|...)\s+(b1|b2|...)\b/.test`. -/
def containsWordPair (t : String) (as bs : List String) : Bool :=
  containsPairAux as bs none t.data

def FEELING_WORDS : List String :=
  ["sad", "tired", "stressed", "angry", "upset", "lonely", "anxious",
   "worried", "scared", "happy", "excited"]

/-- `isInstantConversationPrompt`. -/
def isInstantConversationPrompt (p : String) : Bool :=
  let text := Str.jsTrim (Str.lowerStr p)
  if text = "" then false
  else if 200 < text.data.length then false
  else if text.data.any Str.isDigitChar then false
  else if isSmallTalkPrompt text then true
  else if containsWordPair text ["i am", "i\x27m", "im"] FEELING_WORDS then true
  else if containsWordPair text ["feel", "feeling"] FEELING_WORDS then true
  else if Str.containsAnyWord text ["cheer me up", "motivate me",
    "encourage me", "give me hope", "i need motivation"] then true
  else if Str.containsAnyWord text ["tell me a joke", "joke",
    "make me laugh", "funny"] then true
  else if Str.containsAnyWord text ["fact", "fun fact", "random fact"] then true
  else if Str.containsAnyWord text ["how old are you", "your age",
    "what is your age", "age are you"] then true
  else if Str.containsAnyWord text ["what is your name", "your name",
    "who are you", "what are you"] then true
  else if Str.containsAnyWord text ["who made you", "who created you",
    "who built you"] then true
  else if Str.containsAnyWord text ["love me", "be my friend",
    "be my girlfriend", "be my boyfriend", "be my wife", "be my husband",
    "darling", "sweetheart"] then true
  else if Str.startsWithWordAny text ["thanks", "thank you", "thx", "ty"] then true
  else if Str.startsWithWordAny text ["ok", "okay", "cool", "nice", "great"] then true
  else Str.startsWithWordAny text ["yes", "no", "maybe", "sure"]

/-- `isTrivialMessage`. -/
def isTrivialMessage (p : String) : Bool :=
  (["ok", "okay", "thanks", "thank you", "thx", "ty", "lol", "nice",
    "good night", "goodnight"] : List String).contains
    (Str.lowerStr (Str.jsTrim p))

/-- `isSimpleQaFastPath`. -/
def isSimpleQaFastPath (p : String) : Bool :=
  let text := Str.jsTrim p
  if text = "" then false
  else if 40 < Str.wsWordCount text then false
  else
    let lower := Str.lowerStr text
    !(Str.containsAnyWord lower ["function", "bug", "stack trace", "html",
        "css", "javascript", "python", "sql", "schema", "optimize", "debug"]
      || Str.containsAnyWord lower ["prove", "integral", "derivative",
        "theorem", "limit", "riddle", "puzzle", "equation system"]
      || Str.containsAnyWord lower ["top", "best", "rank", "ranking",
        "leaderboard"]
      || Str.containsAnyWord lower ["cite", "sources", "links", "references"]
      || Str.containsAnyWord lower ["in my doc", "in the pdf", "in the file",
        "uploaded"])

/-- A conversation message. -/
structure Msg where
  role : String
  content : String
deriving DecidableEq, Repr

/-- Where the ws handler's early dispatch sends a request.  The first
four are locally built responses; the last two call the backend LM. -/
inductive Decision where
  | missingPrompt
  | localFollowup
  | localSolver (name : String)
  | instantLocal
  | coreFastBackend
  | fullPipeline
deriving DecidableEq, Repr

def lastByRole (hist : List Msg) (role : String) : Option Msg :=
  hist.reverse.find? (fun m => m.role = role)

/-- The vague-followup branch answers locally with `trySolveSimpleMath`
(`tssm`) on the last user message. -/
def followupHit (tssm : String → Option ℚ) (pp : String)
    (hist : List Msg) : Bool :=
  isVagueFollowup (Str.jsTrim pp) && !hist.isEmpty
  && (match lastByRole hist "user" with
      | some m =>
        decide (Str.jsTrim m.content ≠ "") && (tssm (Str.jsTrim m.content)).isSome
      | none => false)

/-- The prompt state after the vague-followup rewrite, the `userPrompt`
override and `normalizeUserPrompt`: first the prompt the trivial/instant
and fast-path checks see (`incomingPrompt`), second the prompt handed to
the local solvers (`solverPrompt`).  `hist` is the effective
conversation history (the payload's if nonempty, else the stored one). -/
def dispatchState (pp : String) (pup : Option String)
    (hist : List Msg) : String × String :=
  let incoming0 := Str.jsTrim pp
  let vague := isVagueFollowup incoming0 && !hist.isEmpty
  let lastUserText := match lastByRole hist "user" with
    | some m => Str.jsTrim m.content
    | none => ""
  let lastAssistantText := match lastByRole hist "assistant" with
    | some m => extractResultSection m.content
    | none => ""
  let contextParts :=
    (if lastUserText ≠ "" then ["Previous question: " ++ lastUserText] else [])
    ++ (if lastAssistantText ≠ "" then ["Previous answer: " ++ lastAssistantText]
        else [])
  let incoming1 := if vague && !contextParts.isEmpty then
      "Explain the previous answer clearly and stay on that topic.\n\n"
        ++ incoming0 ++ "\n\n" ++ String.intercalate "\n" contextParts
    else incoming0
  let basePrompt := match pup with
    | some up => if Str.jsTrim up = "" then incoming1 else Str.jsTrim up
    | none => incoming1
  let norm := normalizeUserPrompt basePrompt
  ((if norm.2 then norm.1 else incoming1), (if norm.2 then norm.1 else basePrompt))

/-- The prompt the trivial/instant dispatch check actually sees. -/
def effectivePrompt (pp : String) (pup : Option String)
    (hist : List Msg) : String :=
  (dispatchState pp pup hist).1

/-- The ws handler's early dispatch: missing prompt, the vague-followup
local answer, the local solvers, the trivial/instant local reply, the
simple-QA fast backend call, or the full pipeline. -/
def wsDispatch (pd : String → Option Int) (rc : String → String → Bool)
    (tssm : String → Option ℚ) (pp : String) (pup : Option String)
    (hist : List Msg) : Decision :=
  if Str.jsTrim pp = "" then .missingPrompt
  else if followupHit tssm pp hist then .localFollowup
  else
    match tryLocalSolvers pd rc (dispatchState pp pup hist).2 with
    | some name => .localSolver name
    | none =>
      if isTrivialMessage (dispatchState pp pup hist).1
          || isInstantConversationPrompt (dispatchState pp pup hist).1 then
        .instantLocal
      else if isSimpleQaFastPath (dispatchState pp pup hist).1 then
        .coreFastBackend
      else .fullPipeline

end Srv

/-! Sample values used by witness theorems. -/

def RC.dummyItem : RC.CacheItem := ⟨"", 0, none, ""⟩

def RC.dummyVal : RC.StoreVal := ⟨"", 0, 0⟩

def Mem.sampleExpired : Mem.MemoryEntry :=
  ⟨"1", "p", "r", ["hello"], none, ⟨none, none⟩, "", some "x"⟩

end BAAI

/-! # Theorems -/

namespace BAAI

/-! ## Helper lemmas -/

theorem jsMapSet_length_le {α : Type} (m : List (String × α)) (k : String)
    (v : α) : (RC.jsMapSet m k v).length ≤ m.length + 1 := by
  unfold RC.jsMapSet
  by_cases h : m.any (fun p => p.1 = k)
  · simp [h]
  · simp [h]

theorem jsMapDelete_length_lt {α : Type} (m : List (String × α)) (k : String)
    (hk : m.any (fun p => p.1 = k)) :
    (RC.jsMapDelete m k).length < m.length := by
  unfold RC.jsMapDelete
  rcases List.any_eq_true.mp hk with ⟨p, hp, hpk⟩
  calc (m.filter (fun p => p.1 ≠ k)).length
      < m.length := by
        apply List.length_filter_lt_length_iff_exists.mpr
        exact ⟨p, hp, by simpa using of_decide_eq_true hpk⟩

theorem setCachedResponse_bound (cache : List (String × RC.CacheItem))
    (k : String) (item : RC.CacheItem) (h : cache.length ≤ 500) :
    (RC.setCachedResponse cache k item).length ≤ 500 := by
  unfold RC.setCachedResponse
  by_cases hfull : RC.MAX_CACHE_SIZE ≤ cache.length
  · match hc : cache with
    | [] => simp [RC.MAX_CACHE_SIZE] at hfull
    | (k0, v0) :: rest =>
      have hany : ((k0, v0) :: rest).any (fun p => p.1 = k0) := by
        simp
      have hdel := jsMapDelete_length_lt ((k0, v0) :: rest) k0 hany
      have hset := jsMapSet_length_le (RC.jsMapDelete ((k0, v0) :: rest) k0) k item
      simp only [hfull, if_pos, List.head?]
      omega
  · have hset := jsMapSet_length_le cache k item
    have hlt : cache.length < 500 := by
      simp only [RC.MAX_CACHE_SIZE, not_le] at hfull
      exact hfull
    simp only [hfull, if_neg, if_false]
    omega

theorem storeInCache_bound (cache : List (String × RC.StoreVal))
    (k : String) (v : RC.StoreVal) (h : cache.length ≤ 500) :
    (RC.storeInCache cache k v).length ≤ 500 := by
  unfold RC.storeInCache
  by_cases hfull : RC.MAX_CACHE_ENTRIES ≤ cache.length
  · match hc : cache with
    | [] => simp [RC.MAX_CACHE_ENTRIES] at hfull
    | (k0, v0) :: rest =>
      have hany : ((k0, v0) :: rest).any (fun p => p.1 = k0) := by
        simp
      have hdel := jsMapDelete_length_lt ((k0, v0) :: rest) k0 hany
      have hset := jsMapSet_length_le (RC.jsMapDelete ((k0, v0) :: rest) k0) k v
      simp only [hfull, if_pos, List.head?]
      omega
  · have hset := jsMapSet_length_le cache k v
    have hlt : cache.length < 500 := by
      simp only [RC.MAX_CACHE_ENTRIES, not_le] at hfull
      exact hfull
    simp only [hfull, if_neg, if_false]
    omega

/-- **C6.** After every `saveMemory` the persisted list is the tail of the
input, bounded at 500; the two response caches never exceed 500 entries
across writes, and a write to a full cache evicts the oldest-inserted
(first) entry before inserting. -/
theorem C6_bounded_stores :
    (∀ entries : List Mem.MemoryEntry,
        (Mem.saveMemory entries).length ≤ 500 ∧
        Mem.saveMemory entries = entries.drop (entries.length - 500)) ∧
    (∀ (cache : List (String × RC.CacheItem)) (k : String) (item : RC.CacheItem),
        cache.length ≤ 500 → (RC.setCachedResponse cache k item).length ≤ 500) ∧
    (∀ (cache : List (String × RC.StoreVal)) (k : String) (v : RC.StoreVal),
        cache.length ≤ 500 → (RC.storeInCache cache k v).length ≤ 500) ∧
    (∀ (cache : List (String × RC.StoreVal)) (k0 : String) (v0 : RC.StoreVal)
        (k : String) (v : RC.StoreVal),
        cache.head? = some (k0, v0) → 500 ≤ cache.length →
        RC.storeInCache cache k v =
          RC.jsMapSet (RC.jsMapDelete cache k0) k v) := by
  refine ⟨?_, ?_, ?_, ?_⟩
  · intro entries
    constructor
    · unfold Mem.saveMemory Mem.MAX_ENTRIES
      simp only [List.length_drop]
      omega
    · rfl
  · exact setCachedResponse_bound
  · exact storeInCache_bound
  · intro cache k0 v0 k v hhead hlen
    unfold RC.storeInCache
    have hfull : RC.MAX_CACHE_ENTRIES ≤ cache.length := hlen
    simp only [hfull, if_pos, hhead]

/-- **C6 witness**: a concrete full cache write and a concrete non-full
write, both via `C6_bounded_stores`. -/
theorem C6_bounded_stores_witness :
    ((RC.setCachedResponse (("k", RC.dummyItem) :: List.replicate 499
        ("k", RC.dummyItem)) "new" RC.dummyItem).length ≤ 500) ∧
    (RC.storeInCache (("k", RC.dummyVal) :: List.replicate 499
        ("k", RC.dummyVal)) "new" RC.dummyVal =
      RC.jsMapSet
        (RC.jsMapDelete (("k", RC.dummyVal) :: List.replicate 499
          ("k", RC.dummyVal)) "k") "new" RC.dummyVal) :=
  ⟨C6_bounded_stores.2.1 _ "new" RC.dummyItem (by simp),
   C6_bounded_stores.2.2.2 _ "k" RC.dummyVal "new" RC.dummyVal rfl
     (by simp)⟩

theorem insertByScore_mem (p x : Mem.MemoryEntry × ℚ)
    (l : List (Mem.MemoryEntry × ℚ)) :
    x ∈ Mem.insertByScore p l ↔ x = p ∨ x ∈ l := by
  induction l with
  | nil => simp [Mem.insertByScore]
  | cons q rest ih =>
    unfold Mem.insertByScore
    by_cases h : q.2 < p.2
    · simp [h]
    · simp only [h, if_neg, if_false, List.mem_cons, ih]
      tauto

theorem sortByScoreDesc_mem (x : Mem.MemoryEntry × ℚ)
    (l : List (Mem.MemoryEntry × ℚ)) :
    x ∈ Mem.sortByScoreDesc l ↔ x ∈ l := by
  induction l with
  | nil => simp [Mem.sortByScoreDesc]
  | cons q rest ih =>
    unfold Mem.sortByScoreDesc
    rw [insertByScore_mem]
    simp [ih]

/-- Every entry returned by `queryMemoryEntries` passed the expiry filter. -/
theorem queryMemoryEntries_not_expired (sqrt : ℚ → ℚ)
    (dateParse : String → Option Int) (now : Int)
    (entries : List Mem.MemoryEntry) (query : String) (limit : Nat)
    (opts : Mem.QueryOpts) (e : Mem.MemoryEntry)
    (he : e ∈ Mem.queryMemoryEntries sqrt dateParse now entries query limit opts) :
    Mem.isExpired dateParse now e = false := by
  unfold Mem.queryMemoryEntries at he
  by_cases ht : (Mem.extractKeywords query).isEmpty
  · simp [ht] at he
  · simp only [ht, if_neg, if_false] at he
    rcases List.mem_map.mp he with ⟨⟨e', s⟩, hmem, hfst⟩
    have hmem2 := List.mem_of_mem_take hmem
    rw [sortByScoreDesc_mem] at hmem2
    have hmem3 := List.mem_of_mem_filter hmem2
    rcases List.mem_map.mp hmem3 with ⟨e'', hmem4, heq⟩
    have hfil := List.mem_filter.mp hmem4
    have : e'' = e' := congrArg Prod.fst heq
    subst this
    cases hfst
    simpa using hfil.2

/-- **C7.** An entry whose `expiresAt` parses to a time strictly before
`now` is never returned by `queryMemoryEntries` and is removed by
`pruneExpiredEntries`; an entry with no `expiresAt`, or with an
`expiresAt` that does not parse, is retained by the purge. -/
theorem C7_ttl_expiry :
    (∀ (sqrt : ℚ → ℚ) (dateParse : String → Option Int) (now : Int)
        (entries : List Mem.MemoryEntry) (query : String) (limit : Nat)
        (opts : Mem.QueryOpts) (e : Mem.MemoryEntry) (s : String) (t : Int),
        e.expiresAt = some s → s ≠ "" → dateParse s = some t → t < now →
        e ∉ Mem.queryMemoryEntries sqrt dateParse now entries query limit opts) ∧
    (∀ (dateParse : String → Option Int) (now : Int)
        (entries : List Mem.MemoryEntry) (e : Mem.MemoryEntry) (s : String)
        (t : Int),
        e.expiresAt = some s → s ≠ "" → dateParse s = some t → t < now →
        e ∉ Mem.pruneExpiredEntries dateParse now entries) ∧
    (∀ (dateParse : String → Option Int) (now : Int)
        (entries : List Mem.MemoryEntry) (e : Mem.MemoryEntry),
        e ∈ entries →
        (e.expiresAt = none ∨
          ∃ s, e.expiresAt = some s ∧ dateParse s = none) →
        e ∈ Mem.pruneExpiredEntries dateParse now entries) := by
  refine ⟨?_, ?_, ?_⟩
  · intro sqrt dateParse now entries query limit opts e s t hs hne hp hlt hmem
    have hexp : Mem.isExpired dateParse now e = true := by
      unfold Mem.isExpired
      rw [hs]
      simp [hne, hp, hlt]
    have := queryMemoryEntries_not_expired sqrt dateParse now entries query
      limit opts e hmem
    rw [hexp] at this
    exact Bool.noConfusion this
  · intro dateParse now entries e s t hs hne hp hlt hmem
    have hexp : Mem.isExpired dateParse now e = true := by
      unfold Mem.isExpired
      rw [hs]
      simp [hne, hp, hlt]
    have := (List.mem_filter.mp hmem).2
    rw [hexp] at this
    simp at this
  · intro dateParse now entries e hmem hcase
    apply List.mem_filter.mpr
    refine ⟨hmem, ?_⟩
    unfold Mem.isExpired
    rcases hcase with hnone | ⟨s, hs, hp⟩
    · rw [hnone]; simp
    · rw [hs]
      by_cases hse : s = ""
      · simp [hse]
      · simp [hse, hp]

/-- **C7 witness**: a concretely expired entry is not returned and is
purged; an unparsable-expiry entry is retained. -/
theorem C7_ttl_expiry_witness :
    Mem.sampleExpired ∉
      Mem.queryMemoryEntries (fun q => q)
        (fun s => if s = "x" then some 0 else none) 1 [Mem.sampleExpired]
        "hello" 4 ⟨none, false, none, none, none⟩ ∧
    Mem.sampleExpired ∉
      Mem.pruneExpiredEntries (fun s => if s = "x" then some 0 else none) 1
        [Mem.sampleExpired] ∧
    Mem.sampleExpired ∈
      Mem.pruneExpiredEntries (fun _ => none) 1 [Mem.sampleExpired] :=
  ⟨C7_ttl_expiry.1 _ _ 1 _ "hello" 4 _ Mem.sampleExpired "x" 0 rfl
      (by decide) rfl (by decide),
   C7_ttl_expiry.2.1 _ 1 _ Mem.sampleExpired "x" 0 rfl (by decide) rfl
      (by decide),
   C7_ttl_expiry.2.2 _ 1 [Mem.sampleExpired] Mem.sampleExpired
      (by simp) (Or.inr ⟨"x", rfl, rfl⟩)⟩

/-- **C8 counterexample.** The claim reads the boost as +2 on top of the
capped contribution (`min 2 matches + 2 = 3` here), but the code computes
`min 3 (matches * 2)`, which is 2 for a single boosted match. -/
theorem C8_pattern_cap_counterexample :
    IC.patternContribution "MATH_REASONING" "how many" "how many 5" = 2 ∧
    min 2 (Str.countOccur (Str.lowerStr "how many 5").data
        (Str.lowerStr "how many").data) + 2 = 3 := by
  constructor
  · decide
  · decide

/-- **C8 (amended).** Each pattern's contribution is at most 2, except
that MATH_REASONING's "how many"/"how much" with a digit in the prompt
contribute `min 3 (2·matches)` — at most 3, and at most 1 above the
unboosted `min 2 matches` — and every intent score is clamped to be
non-negative. -/
theorem C8_pattern_cap :
    (∀ intentType pattern prompt : String,
        ¬(intentType = "MATH_REASONING"
            ∧ (pattern = "how many" ∨ pattern = "how much")
            ∧ Str.hasDigit prompt = true) →
        IC.patternContribution intentType pattern prompt ≤ 2) ∧
    (∀ intentType pattern prompt : String,
        intentType = "MATH_REASONING" →
        (pattern = "how many" ∨ pattern = "how much") →
        Str.hasDigit prompt = true →
        IC.patternContribution intentType pattern prompt =
          min 3 (2 * Str.countOccur (Str.lowerStr prompt).data
            (Str.lowerStr pattern).data)) ∧
    (∀ intentType pattern prompt : String,
        IC.patternContribution intentType pattern prompt ≤
          min 2 (Str.countOccur (Str.lowerStr prompt).data
            (Str.lowerStr pattern).data) + 1) ∧
    (∀ (patterns : List String) (intentType prompt : String)
        (advancedHit : Bool) (previousIntent userPreference : Option String)
        (excludeIntents : List String),
        0 ≤ IC.intentScore patterns intentType prompt advancedHit
          previousIntent userPreference excludeIntents) := by
  refine ⟨?_, ?_, ?_, ?_⟩
  · intro it pat prompt hnot
    unfold IC.patternContribution
    by_cases hb : (it = "MATH_REASONING"
        && (pat = "how many" || pat = "how much")) = true
    · simp only [hb, if_pos]
      simp only [Bool.and_eq_true, Bool.or_eq_true, decide_eq_true_eq] at hb
      by_cases hd : Str.hasDigit prompt = true
      · exact absurd ⟨hb.1, hb.2, hd⟩ hnot
      · rw [Bool.not_eq_true] at hd
        rw [hd]
        simp only [Bool.false_eq_true, if_false]
        exact Nat.min_le_left _ _
    · rw [Bool.not_eq_true] at hb
      rw [hb]
      simp only [Bool.false_eq_true, if_false]
      exact Nat.min_le_left _ _
  · intro it pat prompt h1 h2 h3
    unfold IC.patternContribution
    have hb : (it = "MATH_REASONING"
        && (pat = "how many" || pat = "how much")) = true := by
      subst h1
      rcases h2 with h2 | h2 <;> subst h2 <;> decide
    rw [hb, h3]
    simp only [if_pos]
    ring_nf
  · intro it pat prompt
    unfold IC.patternContribution
    by_cases hb : (it = "MATH_REASONING"
        && (pat = "how many" || pat = "how much")) = true
    · rw [hb]
      by_cases hd : Str.hasDigit prompt = true
      · rw [hd]
        simp only [if_pos]
        omega
      · rw [Bool.not_eq_true] at hd
        rw [hd]
        simp only [Bool.false_eq_true, if_false, if_pos]
        omega
    · rw [Bool.not_eq_true] at hb
      rw [hb]
      simp only [Bool.false_eq_true, if_false]
      omega
  · intro patterns it prompt adv prev pref excl
    unfold IC.intentScore
    exact le_max_left 0 _

/-- **C8 witness**: the boosted branch computed via `C8_pattern_cap` at a
concrete prompt. -/
theorem C8_pattern_cap_witness :
    IC.patternContribution "MATH_REASONING" "how much" "how much is 2+2" =
      min 3 (2 * Str.countOccur (Str.lowerStr "how much is 2+2").data
        (Str.lowerStr "how much").data) :=
  C8_pattern_cap.2.1 "MATH_REASONING" "how much" "how much is 2+2" rfl
    (Or.inr rfl) (by decide)

/-- **C5 counterexample.** The denylist patterns carry word boundaries:
`let offset = 1` contains the substring `fs` yet passes the JavaScript
safety check unrejected, refuting the claim's "every code string
containing ... fs" reading. -/
theorem C5_sandbox_denylist_counterexample :
    Str.containsStr "let offset = 1" "fs" = true ∧
    RE.runJavaScriptPrecheck "let offset = 1" true 12000 = none := by
  constructor
  · decide
  · decide

/-- **C5 (amended).** In safe mode, every non-empty code string of at most
`maxChars` characters that matches the denylist (word-boundary regexes)
is rejected as unsafe before any execution, for Python, JavaScript and
TypeScript alike; with safe mode off no denylist rejection ever occurs. -/
theorem C5_sandbox_denylist :
    (∀ (code : String) (maxChars : Nat),
        Str.jsTrim code ≠ "" → code.length ≤ maxChars →
        RE.pythonBlocked code = true →
        RE.runPythonPrecheck code true maxChars = some RE.ToolErr.denylisted) ∧
    (∀ (code : String) (maxChars : Nat),
        Str.jsTrim code ≠ "" → code.length ≤ maxChars →
        RE.jsBlocked code = true →
        RE.runJavaScriptPrecheck code true maxChars
            = some RE.ToolErr.denylisted ∧
        RE.runTypeScriptPrecheck code true maxChars
            = some RE.ToolErr.denylisted) ∧
    (∀ (code : String) (maxChars : Nat),
        RE.runPythonPrecheck code false maxChars ≠ some RE.ToolErr.denylisted ∧
        RE.runJavaScriptPrecheck code false maxChars
            ≠ some RE.ToolErr.denylisted ∧
        RE.runTypeScriptPrecheck code false maxChars
            ≠ some RE.ToolErr.denylisted) := by
  refine ⟨?_, ?_, ?_⟩
  · intro code maxChars h1 h2 h3
    unfold RE.runPythonPrecheck
    rw [if_neg h1, if_neg (by omega : ¬ maxChars < code.length)]
    simp [h3]
  · intro code maxChars h1 h2 h3
    constructor
    · unfold RE.runJavaScriptPrecheck
      rw [if_neg h1, if_neg (by omega : ¬ maxChars < code.length)]
      simp [h3]
    · unfold RE.runTypeScriptPrecheck
      rw [if_neg h1, if_neg (by omega : ¬ maxChars < code.length)]
      simp [h3]
  · intro code maxChars
    refine ⟨?_, ?_, ?_⟩
    · unfold RE.runPythonPrecheck
      simp only [Bool.false_and, Bool.false_eq_true, if_false]
      split_ifs <;> decide
    · unfold RE.runJavaScriptPrecheck
      simp only [Bool.false_and, Bool.false_eq_true, if_false]
      split_ifs <;> decide
    · unfold RE.runTypeScriptPrecheck
      simp only [Bool.false_and, Bool.false_eq_true, if_false]
      split_ifs <;> decide

/-- **C5 witness**: concrete safe-mode rejections through
`C5_sandbox_denylist`. -/
theorem C5_sandbox_denylist_witness :
    RE.runPythonPrecheck "import os" true 12000
        = some RE.ToolErr.denylisted ∧
    RE.runJavaScriptPrecheck "require(\"fs\")" true 12000
        = some RE.ToolErr.denylisted :=
  ⟨C5_sandbox_denylist.1 "import os" 12000 (by decide) (by decide) (by decide),
   (C5_sandbox_denylist.2.1 "require(\"fs\")" 12000 (by decide) (by decide)
     (by decide)).1⟩

/-- **C3 counterexample.** A first-attempt failure matching the
memory-pressure sentinel on a model other than `deepseek-r1` triggers no
retry at all: the handler re-throws with no events, refuting the claim's
"for every request whose backend attempt fails with [a memory] error ...
exactly one retry is run". -/
theorem C3_retry_gating_counterexample :
    Srv.memoryErrorRegexTest "out of memory" = true ∧
    Srv.wsGenerate "llama3.2" (Srv.fallbackModel "SIMPLE_QA" "hi")
        (Srv.AttemptResult.err "Error" "out of memory") "partial"
        Srv.AttemptResult.ok "retried" = ([], none) := by
  constructor
  · decide
  · decide

/-- **C3 (amended).** Only when the failing attempt's model is
`deepseek-r1` does a memory-pressure error or an abort trigger exactly
one retry with the deterministic fallback model; the retry emits
`model_fallback` then `model_retry_start` (reason `insufficient_memory`
for the sentinel, `timeout` for a plain abort), the token buffer is
reset (a successful retry's final text is the retry's tokens alone), and
a second failure is terminal.  For any other model a failed attempt
yields no retry.  The reasoning model has no per-attempt deadline. -/
theorem C3_retry_fallback :
    (∀ (fb msg name t1 t2 : String) (a2 : Srv.AttemptResult),
        Srv.memoryErrorRegexTest msg = true →
        ((Srv.wsGenerate "deepseek-r1" fb (.err name msg) t1 a2 t2).1.countP
            (fun e => Srv.isRetryStart e) = 1) ∧
        (a2 = .ok →
          Srv.wsGenerate "deepseek-r1" fb (.err name msg) t1 a2 t2 =
            ([.model_fallback "deepseek-r1" fb "insufficient_memory",
              .model_retry_start "deepseek-r1" fb "insufficient_memory",
              .model_retry_done fb], some (fb, t2))) ∧
        (∀ nm ms, a2 = .err nm ms →
          Srv.wsGenerate "deepseek-r1" fb (.err name msg) t1 a2 t2 =
            ([.model_fallback "deepseek-r1" fb "insufficient_memory",
              .model_retry_start "deepseek-r1" fb "insufficient_memory"],
              none))) ∧
    (∀ (fb msg t1 t2 : String) (a2 : Srv.AttemptResult),
        ((Srv.wsGenerate "deepseek-r1" fb (.err "AbortError" msg) t1 a2
            t2).1.countP (fun e => Srv.isRetryStart e) = 1) ∧
        (Srv.memoryErrorRegexTest msg = false → a2 = .ok →
          Srv.wsGenerate "deepseek-r1" fb (.err "AbortError" msg) t1 a2 t2 =
            ([.model_fallback "deepseek-r1" fb "timeout",
              .model_retry_start "deepseek-r1" fb "timeout",
              .model_retry_done fb], some (fb, t2))) ∧
        (∀ nm ms, Srv.memoryErrorRegexTest msg = false → a2 = .err nm ms →
          Srv.wsGenerate "deepseek-r1" fb (.err "AbortError" msg) t1 a2 t2 =
            ([.model_fallback "deepseek-r1" fb "timeout",
              .model_retry_start "deepseek-r1" fb "timeout"], none))) ∧
    (∀ (model fb msg name t1 t2 : String) (a2 : Srv.AttemptResult),
        model ≠ "deepseek-r1" →
        ((Srv.wsGenerate model fb (.err name msg) t1 a2 t2).1.countP
            (fun e => Srv.isRetryStart e) = 0) ∧
        (Srv.wsGenerate model fb (.err name msg) t1 a2 t2).2 = none) ∧
    (∀ configTimeoutMs : Nat,
        Srv.attemptTimeoutMs "deepseek-r1" configTimeoutMs = 0) ∧
    (∀ (model : String) (configTimeoutMs : Nat), model ≠ "deepseek-r1" →
        Srv.attemptTimeoutMs model configTimeoutMs = configTimeoutMs) := by
  refine ⟨?_, ?_, ?_, ?_, ?_⟩
  · intro fb msg name t1 t2 a2 hmem
    have hcond : ("deepseek-r1" = "deepseek-r1"
        && Srv.memoryErrorRegexTest msg) = true := by
      rw [hmem]; decide
    refine ⟨?_, ?_, ?_⟩
    · cases a2 <;> simp [Srv.wsGenerate, hmem, Srv.isRetryStart]
    · intro ha2
      subst ha2
      simp [Srv.wsGenerate, hmem]
    · intro nm ms ha2
      subst ha2
      simp [Srv.wsGenerate, hmem]
  · intro fb msg t1 t2 a2
    by_cases hmem : Srv.memoryErrorRegexTest msg = true
    · refine ⟨?_, ?_, ?_⟩
      · cases a2 <;> simp [Srv.wsGenerate, hmem, Srv.isRetryStart]
      · intro hmem2 _
        rw [hmem] at hmem2
        exact Bool.noConfusion hmem2
      · intro nm ms hmem2 _
        rw [hmem] at hmem2
        exact Bool.noConfusion hmem2
    · rw [Bool.not_eq_true] at hmem
      refine ⟨?_, ?_, ?_⟩
      · cases a2 <;> simp [Srv.wsGenerate, hmem, Srv.isRetryStart]
      · intro _ ha2
        subst ha2
        simp [Srv.wsGenerate, hmem]
      · intro nm ms _ ha2
        subst ha2
        simp [Srv.wsGenerate, hmem]
  · intro model fb msg name t1 t2 a2 hmodel
    have hm : (model = "deepseek-r1") = False := by
      simp [hmodel]
    constructor
    · by_cases hname : name = "AbortError"
      · simp [Srv.wsGenerate, hm, hname, Srv.isRetryStart]
      · simp [Srv.wsGenerate, hm, hname, Srv.isRetryStart]
    · by_cases hname : name = "AbortError"
      · simp [Srv.wsGenerate, hm, hname]
      · simp [Srv.wsGenerate, hm, hname]
  · intro cfg
    rfl
  · intro model cfg hmodel
    unfold Srv.attemptTimeoutMs
    rw [if_neg hmodel]

/-- **C3 witness**: a concrete `deepseek-r1` memory-pressure failure and
a concrete `deepseek-r1` abort, each with a successful retry, through
`C3_retry_fallback`. -/
theorem C3_retry_fallback_witness :
    (Srv.wsGenerate "deepseek-r1" "qwen3"
        (Srv.AttemptResult.err "Error" "model requires more system memory")
        "old tokens" Srv.AttemptResult.ok "new tokens" =
      ([.model_fallback "deepseek-r1" "qwen3" "insufficient_memory",
        .model_retry_start "deepseek-r1" "qwen3" "insufficient_memory",
        .model_retry_done "qwen3"], some ("qwen3", "new tokens"))) ∧
    (Srv.wsGenerate "deepseek-r1" "llama3.2"
        (Srv.AttemptResult.err "AbortError" "The operation was aborted")
        "old tokens" Srv.AttemptResult.ok "new tokens" =
      ([.model_fallback "deepseek-r1" "llama3.2" "timeout",
        .model_retry_start "deepseek-r1" "llama3.2" "timeout",
        .model_retry_done "llama3.2"], some ("llama3.2", "new tokens"))) :=
  ⟨(C3_retry_fallback.1 "qwen3" "model requires more system memory" "Error"
      "old tokens" "new tokens" Srv.AttemptResult.ok (by decide)).2.1 rfl,
   (C3_retry_fallback.2.1 "llama3.2" "The operation was aborted"
      "old tokens" "new tokens" Srv.AttemptResult.ok).2.1 (by decide) rfl⟩

theorem scanAnyPos_append (p : List Char → Bool) (xs ys : List Char)
    (h : Str.scanAnyPos p ys = true) :
    Str.scanAnyPos p (xs ++ ys) = true := by
  induction xs with
  | nil => simpa using h
  | cons x xs' ih =>
    simp only [List.cons_append, Str.scanAnyPos]
    rw [Bool.or_eq_true]
    right
    exact ih

theorem scanLineStart_anyPrev (p : List Char → Bool) (prev prev' : Option Char)
    (ys : List Char) (h' : Str.lineStartOk prev' = true)
    (h : Str.scanLineStart p prev ys = true) :
    Str.scanLineStart p prev' ys = true := by
  cases ys with
  | nil => simp [Str.scanLineStart] at h
  | cons c rest =>
    unfold Str.scanLineStart at h ⊢
    rw [Bool.or_eq_true] at h ⊢
    rcases h with h | h
    · left
      rw [Bool.and_eq_true] at h ⊢
      exact ⟨h', h.2⟩
    · right
      exact h

theorem scanLineStart_append (p : List Char → Bool) (xs : List Char)
    (prev0 : Option Char) (ys : List Char)
    (h : Str.scanLineStart p (Str.prevAfter prev0 xs) ys = true) :
    Str.scanLineStart p prev0 (xs ++ ys) = true := by
  induction xs generalizing prev0 with
  | nil => simpa [Str.prevAfter] using h
  | cons x xs' ih =>
    rw [List.cons_append]
    cases hx : xs' ++ ys with
    | nil =>
      rcases List.append_eq_nil.mp hx with ⟨h1, h2⟩
      subst h1 h2
      simp [Str.scanLineStart, Str.prevAfter] at h
    | cons z zs =>
      unfold Str.scanLineStart
      rw [Bool.or_eq_true]
      right
      rw [← hx]
      exact ih (some x) h

theorem prevAfter_append (prev0 : Option Char) (xs ys : List Char) :
    Str.prevAfter prev0 (xs ++ ys) = Str.prevAfter (Str.prevAfter prev0 xs) ys := by
  induction xs generalizing prev0 with
  | nil => simp [Str.prevAfter]
  | cons x xs' ih =>
    show Str.prevAfter (some x) (xs' ++ ys)
      = Str.prevAfter (Str.prevAfter (some x) xs') ys
    exact ih (some x)

/-- `onlyNPrefix` always ends with a newline. -/
theorem prevAfter_onlyNPrefix (n : Nat) (prev0 : Option Char) :
    Str.prevAfter prev0 (Srv.onlyNPrefix n).data = some '\n' := by
  unfold Srv.onlyNPrefix
  rw [String.data_append, String.data_append, prevAfter_append,
    prevAfter_append]
  rfl

theorem testLineNumDot_prepend (core : String) (n : Nat) (d : Char)
    (h : Srv.testLineNumDot core d = true) :
    Srv.testLineNumDot (Srv.onlyNPrefix n ++ core) d = true := by
  unfold Srv.testLineNumDot at h ⊢
  rw [String.data_append]
  apply scanLineStart_append
  rw [prevAfter_onlyNPrefix]
  exact scanLineStart_anyPrev _ none _ _ (by decide) h

theorem hasCitation_prepend (core : String) (n : Nat)
    (h : Srv.hasCitation core = true) :
    Srv.hasCitation (Srv.onlyNPrefix n ++ core) = true := by
  unfold Srv.hasCitation at h ⊢
  rw [String.data_append]
  exact scanAnyPos_append _ _ _ h

theorem validateRankingResponse_prepend (core : String) (n : Nat)
    (h : Srv.validateRankingResponse core = true) :
    Srv.validateRankingResponse (Srv.onlyNPrefix n ++ core) = true := by
  unfold Srv.validateRankingResponse at h ⊢
  rw [Bool.and_eq_true, Bool.and_eq_true] at h ⊢
  exact ⟨⟨testLineNumDot_prepend core n '1' h.1.1,
    testLineNumDot_prepend core n '2' h.1.2⟩,
    hasCitation_prepend core n h.2⟩

/-- The post-validation tail of the ranking branch, for an arbitrary
post-regeneration text `r1`: it ends in either the stock no-list refusal
or a validated response. -/
theorem rankingTail_ok (r1 prompt : String) :
    (let r2 := if Srv.validateRankingResponse r1 then r1
               else Srv.STOCK_NO_LIST
     let count := Srv.countRankingItems r2
     if 0 < count && count < 10 && Srv.topTenTest prompt then
       Srv.onlyNPrefix count ++ r2
     else r2) = Srv.STOCK_NO_LIST ∨
    Srv.validateRankingResponse
      (let r2 := if Srv.validateRankingResponse r1 then r1
                 else Srv.STOCK_NO_LIST
       let count := Srv.countRankingItems r2
       if 0 < count && count < 10 && Srv.topTenTest prompt then
         Srv.onlyNPrefix count ++ r2
       else r2) = true := by
  by_cases hv : Srv.validateRankingResponse r1 = true
  · simp only [hv, if_true]
    by_cases hc : (0 < Srv.countRankingItems r1
        && Srv.countRankingItems r1 < 10 && Srv.topTenTest prompt) = true
    · simp only [hc, if_true]
      right
      exact validateRankingResponse_prepend r1 _ hv
    · rw [Bool.not_eq_true] at hc
      simp only [hc, Bool.false_eq_true, if_false]
      right
      exact hv
  · rw [Bool.not_eq_true] at hv
    simp only [hv, Bool.false_eq_true, if_false]
    have h0 : Srv.countRankingItems Srv.STOCK_NO_LIST = 0 := by decide
    simp only [h0]
    left
    rfl

/-- **C2 counterexample.** With web sources present but both the original
text and the single regeneration failing validation, the final response is
the stock "couldn't build a reliable ranked list" refusal, which contains
no `[n]` citation and no `1.`/`2.` lines — refuting the claim that a
sourced ranking response always carries citations and enumerated lines. -/
theorem C2_ranking_grounding_counterexample :
    Srv.rankingPostProcess (some ["[1] src"]) "x" (some "y") "top 10 LLMs"
        = Srv.STOCK_NO_LIST ∧
    Srv.hasCitation Srv.STOCK_NO_LIST = false ∧
    Srv.validateRankingResponse Srv.STOCK_NO_LIST = false := by
  refine ⟨?_, ?_, ?_⟩
  · decide
  · decide
  · decide

/-- **C2 (amended).** For a ranking request: with no web sources the final
response is the stock refusal; with sources present, after at most one
regeneration the final response either passes the ranking validator — so
it contains at least one `[n]` citation and `1.`/`2.` lines, with the
honest "only N items" notice prepended when a "top 10" prompt yields
fewer than 10 items — or is the stock "couldn't build a reliable ranked
list" refusal. -/
theorem C2_ranking_grounding :
    (∀ (responseText prompt : String) (regen : Option String),
        Srv.rankingPostProcess none responseText regen prompt
          = Srv.STOCK_NO_SOURCES) ∧
    (∀ (responseText prompt : String) (regen : Option String),
        Srv.rankingPostProcess (some []) responseText regen prompt
          = Srv.STOCK_NO_SOURCES) ∧
    (∀ (src : String) (srcs : List String) (responseText prompt : String)
        (regen : Option String),
        Srv.rankingPostProcess (some (src :: srcs)) responseText regen prompt
            = Srv.STOCK_NO_LIST ∨
        Srv.validateRankingResponse
          (Srv.rankingPostProcess (some (src :: srcs)) responseText regen
            prompt) = true) := by
  refine ⟨?_, ?_, ?_⟩
  · intro responseText prompt regen
    rfl
  · intro responseText prompt regen
    rfl
  · intro src srcs responseText prompt regen
    exact rankingTail_ok
      (if Srv.validateRankingResponse responseText then responseText
       else
         match regen with
         | some t => t
         | none => responseText) prompt

/-- **C2 witness**: concrete runs of the ranking branch via
`C2_ranking_grounding` — an unsourced request and a sourced one. -/
theorem C2_ranking_grounding_witness :
    Srv.rankingPostProcess none "whatever" (some "r") "top 10 LLMs"
        = Srv.STOCK_NO_SOURCES ∧
    (Srv.rankingPostProcess (some ["[1] a"]) "1. A [1]\n2. B [1]" none "best dbs"
        = Srv.STOCK_NO_LIST ∨
      Srv.validateRankingResponse
        (Srv.rankingPostProcess (some ["[1] a"]) "1. A [1]\n2. B [1]" none
          "best dbs") = true) :=
  ⟨C2_ranking_grounding.1 "whatever" "top 10 LLMs" (some "r"),
   C2_ranking_grounding.2.2 "[1] a" [] "1. A [1]\n2. B [1]" "best dbs" none⟩

theorem mem_splitOnCharAux (d : Char) (cs acc l : List Char)
    (hl : l ∈ Fmt.splitOnCharAux d cs acc) :
    ∀ c ∈ l, c ∈ acc ∨ c ∈ cs := by
  induction cs generalizing acc with
  | nil =>
    simp only [Fmt.splitOnCharAux, List.mem_singleton] at hl
    subst hl
    intro c hc
    left
    exact List.mem_reverse.mp hc
  | cons x rest ih =>
    unfold Fmt.splitOnCharAux at hl
    by_cases hx : x = d
    · rw [if_pos hx] at hl
      rcases List.mem_cons.mp hl with h1 | h1
      · subst h1
        intro c hc
        left
        exact List.mem_reverse.mp hc
      · intro c hc
        rcases ih [] h1 c hc with h2 | h2
        · simp at h2
        · right
          exact List.mem_cons_of_mem x h2
    · rw [if_neg hx] at hl
      intro c hc
      rcases ih (x :: acc) hl c hc with h2 | h2
      · rcases List.mem_cons.mp h2 with h3 | h3
        · right
          rw [h3]
          exact List.mem_cons_self x rest
        · left
          exact h3
      · right
        exact List.mem_cons_of_mem x h2

/-- **C9 counterexample.** A text made of numbered `name: value` lines
with no pipe character is claimed to format as `ranking`; instead the
digit after the colon fires `hasTablePattern`'s second regex, the table
extractor finds no pipe rows, and the result is plain `text`. -/
theorem C9_formatter_counterexample :
    Str.containsStr "1. USA: 5000 warheads\n2. Russia: 6000 warheads" "|"
        = false ∧
    Fmt.formatResponse (fun _ => true) (fun _ => []) (fun _ _ => none)
        "1. USA: 5000 warheads\n2. Russia: 6000 warheads"
      = Fmt.Formatted.text := by
  constructor
  · decide
  · decide

/-- **C9 (amended).** `formatResponse` classifies in the fixed order
chart → table → ranking → list → text, but the table branch triggers not
only on pipe rows: the regex `/\d+\.\s+\w+.*:.*\d+/m` also fires on
numbered `name: value` lines whose value contains a digit, and the table
extractor then returns `text` whenever no pipe row exists.  When the
table tests fail and the ranking shape holds, numbered `name: value`
lines are extracted as a ranking. -/
theorem C9_formatter_order :
    (∀ (chartOk : String → Bool) (fm : String → List Fmt.RankItem)
        (pc : String → String → Option String) (text : String),
        Fmt.hasChartPattern text = true → chartOk text = true →
        Fmt.formatResponse chartOk fm pc text = Fmt.Formatted.chart) ∧
    (∀ (chartOk : String → Bool) (fm : String → List Fmt.RankItem)
        (pc : String → String → Option String) (text : String),
        (Fmt.hasChartPattern text && chartOk text) = false →
        Fmt.hasTablePattern text = true →
        Fmt.formatResponse chartOk fm pc text
          = Fmt.extractAndFormatTable text) ∧
    (∀ text : String, (∀ c ∈ text.data, c ≠ '|') →
        Fmt.extractAndFormatTable text = Fmt.Formatted.text) ∧
    (∀ (chartOk : String → Bool) (fm : String → List Fmt.RankItem)
        (pc : String → String → Option String) (text : String),
        (Fmt.hasChartPattern text && chartOk text) = false →
        Fmt.hasTablePattern text = false →
        Fmt.hasRankingPattern text = true →
        Fmt.formatResponse chartOk fm pc text
          = Fmt.extractAndFormatRanking fm pc text) ∧
    (∀ (chartOk : String → Bool) (fm : String → List Fmt.RankItem)
        (pc : String → String → Option String) (text : String),
        (Fmt.hasChartPattern text && chartOk text) = false →
        Fmt.hasTablePattern text = false →
        Fmt.hasRankingPattern text = false →
        Fmt.hasListPattern text = true →
        Fmt.formatResponse chartOk fm pc text
          = Fmt.extractAndFormatList text) ∧
    (∀ (fm : String → List Fmt.RankItem)
        (pc : String → String → Option String) (text : String)
        (r : Fmt.RankItem) (rs : List Fmt.RankItem),
        (Fmt.splitLines text).filterMap Fmt.strictRankLine = r :: rs →
        Fmt.extractAndFormatRanking fm pc text
          = Fmt.Formatted.ranking (Fmt.sortByRank (r :: rs))) := by
  refine ⟨?_, ?_, ?_, ?_, ?_, ?_⟩
  · intro chartOk fm pc text h1 h2
    unfold Fmt.formatResponse
    rw [h1, h2]
    rfl
  · intro chartOk fm pc text h1 h2
    unfold Fmt.formatResponse
    rw [h1, h2]
    simp
  · intro text hp
    unfold Fmt.extractAndFormatTable
    have hnone : ∀ l ∈ (Fmt.splitLines text).filter
        (fun l => Str.jsTrimList l ≠ []),
        (if l.any (fun c => c = '|') then
          (if 2 ≤ (((Fmt.splitOnChar '|' l).map Str.jsTrimList).filter
              (fun c => c ≠ [])).length then
            some ((((Fmt.splitOnChar '|' l).map Str.jsTrimList).filter
              (fun c => c ≠ [])).map (fun c => (⟨c⟩ : String)))
          else none)
        else none) = none := by
      intro l hlf
      have hl := List.mem_of_mem_filter hlf
      have hnp : l.any (fun c => c = '|') = false := by
        rw [Bool.eq_false_iff]
        intro hany
        rcases List.any_eq_true.mp hany with ⟨c, hc, hcp⟩
        have hcp2 : c = '|' := by simpa using hcp
        rcases mem_splitOnCharAux '\n' text.data [] l hl c hc with h2 | h2
        · simp at h2
        · exact hp c h2 hcp2
      rw [hnp]
      simp
    dsimp only
    rw [List.filterMap_eq_nil_iff.mpr hnone]
  · intro chartOk fm pc text h1 h2 h3
    unfold Fmt.formatResponse
    rw [h1, h2, h3]
    simp
  · intro chartOk fm pc text h1 h2 h3 h4
    unfold Fmt.formatResponse
    rw [h1, h2, h3, h4]
    simp
  · intro fm pc text r rs h
    unfold Fmt.extractAndFormatRanking
    rw [h]

/-- **C9 witness**: a colon-style numbered list with digit-free values is
formatted as a ranking, and a pipe-free text falls out of the table
extractor as text — via `C9_formatter_order`. -/
theorem C9_formatter_order_witness :
    Fmt.formatResponse (fun _ => true) (fun _ => []) (fun _ _ => none)
        "1. Alpha: five\n2. Beta: six"
      = Fmt.Formatted.ranking
          [⟨1, "Alpha", "five"⟩, ⟨2, "Beta", "six"⟩] ∧
    Fmt.extractAndFormatTable "no pipes here" = Fmt.Formatted.text := by
  constructor
  · rw [C9_formatter_order.2.2.2.1 (fun _ => true) (fun _ => [])
      (fun _ _ => none) "1. Alpha: five\n2. Beta: six" (by decide)
      (by decide) (by decide)]
    rw [C9_formatter_order.2.2.2.2.2 (fun _ => []) (fun _ _ => none)
      "1. Alpha: five\n2. Beta: six" ⟨1, "Alpha", "five"⟩
      [⟨2, "Beta", "six"⟩] (by decide)]
    decide
  · exact C9_formatter_order.2.2.1 "no pipes here" (by decide)

theorem one_le_prec (t : List Char) : 1 ≤ Arith.prec t := by
  unfold Arith.prec
  split <;> omega

theorem prec_le_two (t : List Char) : Arith.prec t ≤ 2 := by
  unfold Arith.prec
  split <;> omega

theorem isOpTok_cases (t : List Char) (h : Arith.isOpTok t = true) :
    t = ['+'] ∨ t = ['-'] ∨ t = ['*'] ∨ t = ['/'] := by
  simpa [Arith.isOpTok, Bool.or_eq_true, or_assoc] using h

theorem isOpTok_ne_paren (p : List Char) (h : Arith.isOpTok p = true) :
    p ≠ ['('] ∧ p ≠ [')'] := by
  rcases isOpTok_cases p h with h | h | h | h <;> subst h <;>
    exact ⟨by decide, by decide⟩

theorem opTok_not_num (t : List Char) (h : Arith.isOpTok t = true) :
    Arith.tokIsNum t = false := by
  rcases isOpTok_cases t h with h | h | h | h <;> subst h <;> decide

theorem stackTOK_of_EOK (S : List (List Char))
    (h : Arith.stackEOK S = true) : Arith.stackTOK S = true := by
  cases S with
  | nil => rfl
  | cons s rest =>
    simp only [Arith.stackEOK, decide_eq_true_eq] at h
    subst h
    rfl

theorem opsPend_of_mulPend (p : List (List Char))
    (h : Arith.mulPend p = true) : Arith.opsPend p = true := by
  cases p with
  | nil => rfl
  | cons x rest =>
    simp only [Arith.mulPend, Bool.and_eq_true, Bool.or_eq_true,
      decide_eq_true_eq] at h
    obtain ⟨hx, hr⟩ := h
    subst hr
    rcases hx with h | h <;> subst h <;> decide

theorem popGePrec_step (t p : List Char) (S out : List (List Char))
    (hp : Arith.isOpTok p = true) (hle : Arith.prec t ≤ Arith.prec p) :
    Arith.popGePrec t (p :: S) out = Arith.popGePrec t S (out ++ [p]) := by
  simp [Arith.popGePrec, hp, hle]

theorem popGePrec_stopT (t : List Char) (S out : List (List Char))
    (hS : Arith.stackTOK S = true) (ht : t = ['*'] ∨ t = ['/']) :
    Arith.popGePrec t S out = (S, out) := by
  cases S with
  | nil => rfl
  | cons s rest =>
    simp only [Arith.stackTOK, Bool.or_eq_true, decide_eq_true_eq] at hS
    rcases ht with ht | ht <;> subst ht <;>
      rcases hS with (h | h) | h <;> subst h <;>
      simp [Arith.popGePrec, Arith.isOpTok, Arith.prec]

theorem popGePrec_mulPend (t : List Char) (pend S out : List (List Char))
    (ht : t = ['*'] ∨ t = ['/']) (hp : Arith.mulPend pend = true)
    (hS : Arith.stackTOK S = true) :
    Arith.popGePrec t (pend ++ S) out = (S, out ++ pend) := by
  cases pend with
  | nil => simpa using popGePrec_stopT t S out hS ht
  | cons p rest =>
    simp only [Arith.mulPend, Bool.and_eq_true, Bool.or_eq_true,
      decide_eq_true_eq] at hp
    obtain ⟨hp1, hrest⟩ := hp
    subst hrest
    have hop : Arith.isOpTok p = true := by
      rcases hp1 with h | h <;> subst h <;> decide
    have hpr : Arith.prec t ≤ Arith.prec p := by
      have h2 : Arith.prec p = 2 := by
        rcases hp1 with h | h <;> subst h <;> decide
      rw [h2]
      exact prec_le_two t
    rw [List.cons_append, List.nil_append,
      popGePrec_step t p S out hop hpr,
      popGePrec_stopT t S (out ++ [p]) hS ht]

theorem popGePrec_addPend (t : List Char) (ht : t = ['+'] ∨ t = ['-']) :
    ∀ pend S out, Arith.opsPend pend = true → Arith.stackEOK S = true →
    Arith.popGePrec t (pend ++ S) out = (S, out ++ pend) := by
  intro pend
  induction pend with
  | nil =>
    intro S out _ hS
    cases S with
    | nil => simp [Arith.popGePrec]
    | cons s rest =>
      simp only [Arith.stackEOK, decide_eq_true_eq] at hS
      subst hS
      simp [Arith.popGePrec, Arith.isOpTok]
  | cons p rest ih =>
    intro S out hp hS
    simp only [Arith.opsPend, List.all_cons, Bool.and_eq_true] at hp
    have hpr : Arith.prec t ≤ Arith.prec p := by
      have h1 : Arith.prec t = 1 := by
        rcases ht with h | h <;> subst h <;> decide
      rw [h1]
      exact one_le_prec p
    rw [List.cons_append, popGePrec_step t p (rest ++ S) out hp.1 hpr,
      ih S (out ++ [p]) hp.2 hS]
    simp

theorem popToLparen_ops :
    ∀ pend S out, Arith.opsPend pend = true →
    Arith.popToLparen (pend ++ ['('] :: S) out = some (S, out ++ pend) := by
  intro pend
  induction pend with
  | nil =>
    intro S out _
    simp [Arith.popToLparen]
  | cons p rest ih =>
    intro S out hp
    simp only [Arith.opsPend, List.all_cons, Bool.and_eq_true] at hp
    have hnp : p ≠ ['('] := (isOpTok_ne_paren p hp.1).1
    rw [List.cons_append]
    simp only [Arith.popToLparen]
    rw [if_neg hnp, ih S (out ++ [p]) hp.2]
    simp

theorem flushAll_ops :
    ∀ pend out, Arith.opsPend pend = true →
    Arith.flushAll pend out = some (out ++ pend) := by
  intro pend
  induction pend with
  | nil =>
    intro out _
    simp [Arith.flushAll]
  | cons p rest ih =>
    intro out hp
    simp only [Arith.opsPend, List.all_cons, Bool.and_eq_true] at hp
    have h1 := isOpTok_ne_paren p hp.1
    simp only [Arith.flushAll]
    rw [if_neg (by simp [h1.1, h1.2]), ih (out ++ [p]) hp.2]
    simp

theorem toRpnAux_num (t : List Char) (rest : List (List Char))
    (S out : List (List Char)) (h : Arith.tokIsNum t = true) :
    Arith.toRpnAux (t :: rest) S out
      = Arith.toRpnAux rest S (out ++ [t]) := by
  simp [Arith.toRpnAux, h]

theorem toRpnAux_lparen (rest : List (List Char))
    (S out : List (List Char)) :
    Arith.toRpnAux (['('] :: rest) S out
      = Arith.toRpnAux rest (['('] :: S) out := by
  simp [Arith.toRpnAux, show Arith.tokIsNum ['('] = false from by decide]

theorem toRpnAux_rparen (rest : List (List Char))
    (S out : List (List Char)) :
    Arith.toRpnAux ([')'] :: rest) S out
      = (match Arith.popToLparen S out with
         | some (S2, out2) => Arith.toRpnAux rest S2 out2
         | none => none) := by
  simp [Arith.toRpnAux, show Arith.tokIsNum [')'] = false from by decide,
    show ([')'] : List Char) ≠ ['('] from by decide]

theorem toRpnAux_op (t : List Char) (rest : List (List Char))
    (S out : List (List Char)) (hop : Arith.isOpTok t = true) :
    Arith.toRpnAux (t :: rest) S out
      = Arith.toRpnAux rest (t :: (Arith.popGePrec t S out).1)
          (Arith.popGePrec t S out).2 := by
  have h1 : Arith.tokIsNum t = false := opTok_not_num t hop
  have h2 := isOpTok_ne_paren t hop
  simp [Arith.toRpnAux, h1, h2.1, h2.2, hop]

/-- Evaluating the postorder of a tree: a finite value is pushed; a NaN
from a top-level zero division is pushed; any deeper NaN aborts. -/
theorem evalRpnAux_spec :
    ∀ t : Arith.Expr, Arith.litsOk t = true →
    ∀ (rest : List (List Char)) (stack : List Arith.JsNum),
    Arith.evalRpnAux (Arith.rpnOfExpr t ++ rest) stack =
      (match Arith.evalExpr t with
       | Arith.JsNum.num v =>
         Arith.evalRpnAux rest (Arith.JsNum.num v :: stack)
       | Arith.JsNum.nan =>
         if Arith.topZeroDiv t then
           Arith.evalRpnAux rest (Arith.JsNum.nan :: stack)
         else none) := by
  intro t
  induction t with
  | lit s =>
    intro hok rest stack
    simp only [Arith.litsOk] at hok
    simp [Arith.rpnOfExpr, Arith.evalRpnAux, hok, Arith.evalExpr]
  | add a b iha ihb =>
    intro hok rest stack
    simp only [Arith.litsOk, Bool.and_eq_true] at hok
    have ha := iha hok.1
    have hb := ihb hok.2
    simp only [Arith.rpnOfExpr, List.append_assoc]
    cases hA : Arith.evalExpr a with
    | num va =>
      cases hB : Arith.evalExpr b with
      | num vb =>
        rw [ha]
        simp only [hA]
        rw [hb]
        simp only [hB]
        simp [Arith.evalRpnAux, Arith.evalExpr, hA, hB, Arith.jsAdd,
          Arith.isFinite, Arith.topZeroDiv,
          show Arith.tokIsNum ['+'] = false from by decide]
      | nan =>
        rw [ha]
        simp only [hA]
        rw [hb]
        simp only [hB]
        by_cases h0 : Arith.topZeroDiv b = true
        · rw [h0]
          simp only [if_true]
          simp [Arith.evalRpnAux, Arith.evalExpr, hA, hB, Arith.jsAdd,
            Arith.isFinite, Arith.topZeroDiv,
            show Arith.tokIsNum ['+'] = false from by decide]
        · rw [Bool.not_eq_true] at h0
          rw [h0]
          simp [Arith.evalExpr, hA, hB, Arith.jsAdd, Arith.topZeroDiv]
    | nan =>
      rw [ha]
      simp only [hA]
      by_cases h0 : Arith.topZeroDiv a = true
      · rw [h0]
        simp only [if_true]
        cases hB : Arith.evalExpr b with
        | num vb =>
          rw [hb]
          simp only [hB]
          simp [Arith.evalRpnAux, Arith.evalExpr, hA, hB, Arith.jsAdd,
            Arith.isFinite, Arith.topZeroDiv,
            show Arith.tokIsNum ['+'] = false from by decide]
        | nan =>
          rw [hb]
          simp only [hB]
          by_cases h1 : Arith.topZeroDiv b = true
          · rw [h1]
            simp only [if_true]
            simp [Arith.evalRpnAux, Arith.evalExpr, hA, hB, Arith.jsAdd,
              Arith.isFinite, Arith.topZeroDiv,
              show Arith.tokIsNum ['+'] = false from by decide]
          · rw [Bool.not_eq_true] at h1
            rw [h1]
            simp [Arith.evalExpr, hA, hB, Arith.jsAdd, Arith.topZeroDiv]
      · rw [Bool.not_eq_true] at h0
        rw [h0]
        simp [Arith.evalExpr, hA, Arith.jsAdd, Arith.topZeroDiv]
  | sub a b iha ihb =>
    intro hok rest stack
    simp only [Arith.litsOk, Bool.and_eq_true] at hok
    have ha := iha hok.1
    have hb := ihb hok.2
    simp only [Arith.rpnOfExpr, List.append_assoc]
    cases hA : Arith.evalExpr a with
    | num va =>
      cases hB : Arith.evalExpr b with
      | num vb =>
        rw [ha]
        simp only [hA]
        rw [hb]
        simp only [hB]
        simp [Arith.evalRpnAux, Arith.evalExpr, hA, hB, Arith.jsSub,
          Arith.isFinite, Arith.topZeroDiv,
          show Arith.tokIsNum ['-'] = false from by decide]
      | nan =>
        rw [ha]
        simp only [hA]
        rw [hb]
        simp only [hB]
        by_cases h0 : Arith.topZeroDiv b = true
        · rw [h0]
          simp only [if_true]
          simp [Arith.evalRpnAux, Arith.evalExpr, hA, hB, Arith.jsSub,
            Arith.isFinite, Arith.topZeroDiv,
            show Arith.tokIsNum ['-'] = false from by decide]
        · rw [Bool.not_eq_true] at h0
          rw [h0]
          simp [Arith.evalExpr, hA, hB, Arith.jsSub, Arith.topZeroDiv]
    | nan =>
      rw [ha]
      simp only [hA]
      by_cases h0 : Arith.topZeroDiv a = true
      · rw [h0]
        simp only [if_true]
        cases hB : Arith.evalExpr b with
        | num vb =>
          rw [hb]
          simp only [hB]
          simp [Arith.evalRpnAux, Arith.evalExpr, hA, hB, Arith.jsSub,
            Arith.isFinite, Arith.topZeroDiv,
            show Arith.tokIsNum ['-'] = false from by decide]
        | nan =>
          rw [hb]
          simp only [hB]
          by_cases h1 : Arith.topZeroDiv b = true
          · rw [h1]
            simp only [if_true]
            simp [Arith.evalRpnAux, Arith.evalExpr, hA, hB, Arith.jsSub,
              Arith.isFinite, Arith.topZeroDiv,
              show Arith.tokIsNum ['-'] = false from by decide]
          · rw [Bool.not_eq_true] at h1
            rw [h1]
            simp [Arith.evalExpr, hA, hB, Arith.jsSub, Arith.topZeroDiv]
      · rw [Bool.not_eq_true] at h0
        rw [h0]
        simp [Arith.evalExpr, hA, Arith.jsSub, Arith.topZeroDiv]
  | mul a b iha ihb =>
    intro hok rest stack
    simp only [Arith.litsOk, Bool.and_eq_true] at hok
    have ha := iha hok.1
    have hb := ihb hok.2
    simp only [Arith.rpnOfExpr, List.append_assoc]
    cases hA : Arith.evalExpr a with
    | num va =>
      cases hB : Arith.evalExpr b with
      | num vb =>
        rw [ha]
        simp only [hA]
        rw [hb]
        simp only [hB]
        simp [Arith.evalRpnAux, Arith.evalExpr, hA, hB, Arith.jsMul,
          Arith.isFinite, Arith.topZeroDiv,
          show Arith.tokIsNum ['*'] = false from by decide]
      | nan =>
        rw [ha]
        simp only [hA]
        rw [hb]
        simp only [hB]
        by_cases h0 : Arith.topZeroDiv b = true
        · rw [h0]
          simp only [if_true]
          simp [Arith.evalRpnAux, Arith.evalExpr, hA, hB, Arith.jsMul,
            Arith.isFinite, Arith.topZeroDiv,
            show Arith.tokIsNum ['*'] = false from by decide]
        · rw [Bool.not_eq_true] at h0
          rw [h0]
          simp [Arith.evalExpr, hA, hB, Arith.jsMul, Arith.topZeroDiv]
    | nan =>
      rw [ha]
      simp only [hA]
      by_cases h0 : Arith.topZeroDiv a = true
      · rw [h0]
        simp only [if_true]
        cases hB : Arith.evalExpr b with
        | num vb =>
          rw [hb]
          simp only [hB]
          simp [Arith.evalRpnAux, Arith.evalExpr, hA, hB, Arith.jsMul,
            Arith.isFinite, Arith.topZeroDiv,
            show Arith.tokIsNum ['*'] = false from by decide]
        | nan =>
          rw [hb]
          simp only [hB]
          by_cases h1 : Arith.topZeroDiv b = true
          · rw [h1]
            simp only [if_true]
            simp [Arith.evalRpnAux, Arith.evalExpr, hA, hB, Arith.jsMul,
              Arith.isFinite, Arith.topZeroDiv,
              show Arith.tokIsNum ['*'] = false from by decide]
          · rw [Bool.not_eq_true] at h1
            rw [h1]
            simp [Arith.evalExpr, hA, hB, Arith.jsMul, Arith.topZeroDiv]
      · rw [Bool.not_eq_true] at h0
        rw [h0]
        simp [Arith.evalExpr, hA, Arith.jsMul, Arith.topZeroDiv]
  | div a b iha ihb =>
    intro hok rest stack
    simp only [Arith.litsOk, Bool.and_eq_true] at hok
    have ha := iha hok.1
    have hb := ihb hok.2
    simp only [Arith.rpnOfExpr, List.append_assoc]
    cases hA : Arith.evalExpr a with
    | num va =>
      cases hB : Arith.evalExpr b with
      | num vb =>
        rw [ha]
        simp only [hA]
        rw [hb]
        simp only [hB]
        by_cases hz : vb = 0
        · subst hz
          simp [Arith.evalRpnAux, Arith.evalExpr, hA, hB, Arith.jsDiv,
            Arith.isFinite, Arith.topZeroDiv,
            show Arith.tokIsNum ['/'] = false from by decide]
        · simp [Arith.evalRpnAux, Arith.evalExpr, hA, hB, Arith.jsDiv,
            Arith.isFinite, Arith.topZeroDiv, hz,
            show Arith.tokIsNum ['/'] = false from by decide]
      | nan =>
        rw [ha]
        simp only [hA]
        rw [hb]
        simp only [hB]
        by_cases h0 : Arith.topZeroDiv b = true
        · rw [h0]
          simp only [if_true]
          simp [Arith.evalRpnAux, Arith.evalExpr, hA, hB, Arith.jsDiv,
            Arith.isFinite, Arith.topZeroDiv,
            show Arith.tokIsNum ['/'] = false from by decide]
        · rw [Bool.not_eq_true] at h0
          rw [h0]
          simp [Arith.evalExpr, hA, hB, Arith.jsDiv, Arith.topZeroDiv]
    | nan =>
      rw [ha]
      simp only [hA]
      by_cases h0 : Arith.topZeroDiv a = true
      · rw [h0]
        simp only [if_true]
        cases hB : Arith.evalExpr b with
        | num vb =>
          rw [hb]
          simp only [hB]
          simp [Arith.evalRpnAux, Arith.evalExpr, hA, hB, Arith.jsDiv,
            Arith.isFinite, Arith.topZeroDiv,
            show Arith.tokIsNum ['/'] = false from by decide]
        | nan =>
          rw [hb]
          simp only [hB]
          by_cases h1 : Arith.topZeroDiv b = true
          · rw [h1]
            simp only [if_true]
            simp [Arith.evalRpnAux, Arith.evalExpr, hA, hB, Arith.jsDiv,
              Arith.isFinite, Arith.topZeroDiv,
              show Arith.tokIsNum ['/'] = false from by decide]
          · rw [Bool.not_eq_true] at h1
            rw [h1]
            simp [Arith.evalExpr, hA, hB, Arith.jsDiv, Arith.topZeroDiv]
      · rw [Bool.not_eq_true] at h0
        rw [h0]
        simp [Arith.evalExpr, hA, Arith.jsDiv, Arith.topZeroDiv,
          Arith.isFinite]

/-- The shunting-yard run agrees with the grammar: a parsed factor is
emitted whole; a parsed term or expression is emitted up to a pending
operator suffix left on the stack; all parsed numeral leaves are valid
tokens. -/
theorem shunt_master : ∀ n : Nat,
    (∀ ts e rest, Arith.parseF n ts = some (e, rest) →
      Arith.litsOk e = true ∧
      ∀ S out, Arith.toRpnAux ts S out
        = Arith.toRpnAux rest S (out ++ Arith.rpnOfExpr e)) ∧
    (∀ ts e rest, Arith.parseT n ts = some (e, rest) →
      Arith.litsOk e = true ∧
      ∀ S out, Arith.stackTOK S = true →
        ∃ core pend, Arith.rpnOfExpr e = core ++ pend ∧
          Arith.mulPend pend = true ∧
          Arith.toRpnAux ts S out
            = Arith.toRpnAux rest (pend ++ S) (out ++ core)) ∧
    (∀ acc ts e rest, Arith.parseTChain n acc ts = some (e, rest) →
      Arith.litsOk acc = true →
      Arith.litsOk e = true ∧
      ∀ S out core0 pend0, Arith.stackTOK S = true →
        Arith.rpnOfExpr acc = core0 ++ pend0 →
        Arith.mulPend pend0 = true →
        ∃ core pend, Arith.rpnOfExpr e = core ++ pend ∧
          Arith.mulPend pend = true ∧
          Arith.toRpnAux ts (pend0 ++ S) (out ++ core0)
            = Arith.toRpnAux rest (pend ++ S) (out ++ core)) ∧
    (∀ ts e rest, Arith.parseE n ts = some (e, rest) →
      Arith.litsOk e = true ∧
      ∀ S out, Arith.stackEOK S = true →
        ∃ core pend, Arith.rpnOfExpr e = core ++ pend ∧
          Arith.opsPend pend = true ∧
          Arith.toRpnAux ts S out
            = Arith.toRpnAux rest (pend ++ S) (out ++ core)) ∧
    (∀ acc ts e rest, Arith.parseEChain n acc ts = some (e, rest) →
      Arith.litsOk acc = true →
      Arith.litsOk e = true ∧
      ∀ S out core0 pend0, Arith.stackEOK S = true →
        Arith.rpnOfExpr acc = core0 ++ pend0 →
        Arith.opsPend pend0 = true →
        ∃ core pend, Arith.rpnOfExpr e = core ++ pend ∧
          Arith.opsPend pend = true ∧
          Arith.toRpnAux ts (pend0 ++ S) (out ++ core0)
            = Arith.toRpnAux rest (pend ++ S) (out ++ core)) := by
  intro n
  induction n with
  | zero =>
    refine ⟨?_, ?_, ?_, ?_, ?_⟩
    · intro ts e rest h
      simp [Arith.parseF] at h
    · intro ts e rest h
      simp [Arith.parseT] at h
    · intro acc ts e rest h
      simp [Arith.parseTChain] at h
    · intro ts e rest h
      simp [Arith.parseE] at h
    · intro acc ts e rest h
      simp [Arith.parseEChain] at h
  | succ n ih =>
    obtain ⟨ihF, ihT, ihTC, ihE, ihEC⟩ := ih
    refine ⟨?_, ?_, ?_, ?_, ?_⟩
    · -- parseF
      intro ts e rest h
      cases ts with
      | nil => simp [Arith.parseF] at h
      | cons t rest0 =>
        simp only [Arith.parseF] at h
        by_cases hnum : Arith.tokIsNum t = true
        · rw [if_pos hnum] at h
          simp only [Option.some.injEq, Prod.mk.injEq] at h
          obtain ⟨he, hr⟩ := h
          subst he
          subst hr
          refine ⟨by simpa [Arith.litsOk] using hnum, ?_⟩
          intro S out
          rw [toRpnAux_num t rest0 S out hnum]
          simp [Arith.rpnOfExpr]
        · rw [if_neg hnum] at h
          by_cases hpar : t = ['(']
          · rw [if_pos hpar] at h
            subst hpar
            cases hE : Arith.parseE n rest0 with
            | none =>
              rw [hE] at h
              exact Option.noConfusion h
            | some pr =>
              obtain ⟨e1, rem⟩ := pr
              rw [hE] at h
              cases rem with
              | nil => exact Option.noConfusion h
              | cons t2 rest1 =>
                by_cases hrp : t2 = [')']
                · rw [show (match some (e1, t2 :: rest1) with
                      | some (e2, t3 :: rest2) =>
                        if t3 = [')'] then some (e2, rest2) else none
                      | _ => none)
                      = if t2 = [')'] then some (e1, rest1) else none
                      from rfl, if_pos hrp] at h
                  simp only [Option.some.injEq, Prod.mk.injEq] at h
                  obtain ⟨he, hr⟩ := h
                  subst he
                  subst hr
                  subst hrp
                  obtain ⟨hlits, hEp⟩ := ihE rest0 e1 ([')'] :: rest1) hE
                  refine ⟨hlits, ?_⟩
                  intro S out
                  rw [toRpnAux_lparen rest0 S out]
                  obtain ⟨core, pend, hsplit, hops, heq⟩ :=
                    hEp (['('] :: S) out (by rfl)
                  rw [heq, toRpnAux_rparen rest1 (pend ++ ['('] :: S)
                      (out ++ core),
                    popToLparen_ops pend S (out ++ core) hops]
                  simp [hsplit, List.append_assoc]
                · rw [show (match some (e1, t2 :: rest1) with
                      | some (e2, t3 :: rest2) =>
                        if t3 = [')'] then some (e2, rest2) else none
                      | _ => none)
                      = if t2 = [')'] then some (e1, rest1) else none
                      from rfl, if_neg hrp] at h
                  exact Option.noConfusion h
          · rw [if_neg hpar] at h
            exact Option.noConfusion h
    · -- parseT
      intro ts e rest h
      simp only [Arith.parseT] at h
      cases hF : Arith.parseF n ts with
      | none =>
        rw [hF] at h
        exact Option.noConfusion h
      | some pr =>
        obtain ⟨f, rest0⟩ := pr
        rw [hF] at h
        obtain ⟨hlitsF, hFp⟩ := ihF ts f rest0 hF
        obtain ⟨hlitsE, hTCp⟩ := ihTC f rest0 e rest h hlitsF
        refine ⟨hlitsE, ?_⟩
        intro S out hS
        obtain ⟨core, pend, hsplit, hmp, heq⟩ :=
          hTCp S out (Arith.rpnOfExpr f) [] hS (by simp) (by rfl)
        refine ⟨core, pend, hsplit, hmp, ?_⟩
        rw [hFp S out]
        simpa using heq
    · -- parseTChain
      intro acc ts e rest h hacc
      cases ts with
      | nil =>
        simp only [Arith.parseTChain, Option.some.injEq,
          Prod.mk.injEq] at h
        obtain ⟨he, hr⟩ := h
        subst he
        subst hr
        refine ⟨hacc, ?_⟩
        intro S out core0 pend0 hS hsplit0 hmp0
        exact ⟨core0, pend0, hsplit0, hmp0, rfl⟩
      | cons t rest0 =>
        simp only [Arith.parseTChain] at h
        by_cases hmul : t = ['*']
        · rw [if_pos hmul] at h
          subst hmul
          cases hF : Arith.parseF n rest0 with
          | none =>
            rw [hF] at h
            exact Option.noConfusion h
          | some pr =>
            obtain ⟨f, rest1⟩ := pr
            rw [hF] at h
            obtain ⟨hlitsF, hFp⟩ := ihF rest0 f rest1 hF
            have haccf : Arith.litsOk (Arith.Expr.mul acc f) = true := by
              simp [Arith.litsOk, hacc, hlitsF]
            obtain ⟨hlitsE, hTCp⟩ :=
              ihTC (Arith.Expr.mul acc f) rest1 e rest h haccf
            refine ⟨hlitsE, ?_⟩
            intro S out core0 pend0 hS hsplit0 hmp0
            rw [toRpnAux_op ['*'] rest0 (pend0 ++ S) (out ++ core0)
                (by decide),
              popGePrec_mulPend ['*'] pend0 S (out ++ core0)
                (Or.inl rfl) hmp0 hS]
            dsimp only
            have hout : out ++ core0 ++ pend0
                = out ++ Arith.rpnOfExpr acc := by
              rw [hsplit0, List.append_assoc]
            rw [hout, hFp (['*'] :: S) (out ++ Arith.rpnOfExpr acc)]
            obtain ⟨core, pend, hsplit, hmp, heq⟩ :=
              hTCp S out (Arith.rpnOfExpr acc ++ Arith.rpnOfExpr f)
                [['*']] hS (by rfl) (by decide)
            refine ⟨core, pend, hsplit, hmp, ?_⟩
            simpa [List.append_assoc] using heq
        · rw [if_neg hmul] at h
          by_cases hdiv : t = ['/']
          · rw [if_pos hdiv] at h
            subst hdiv
            cases hF : Arith.parseF n rest0 with
            | none =>
              rw [hF] at h
              exact Option.noConfusion h
            | some pr =>
              obtain ⟨f, rest1⟩ := pr
              rw [hF] at h
              obtain ⟨hlitsF, hFp⟩ := ihF rest0 f rest1 hF
              have haccf : Arith.litsOk (Arith.Expr.div acc f) = true := by
                simp [Arith.litsOk, hacc, hlitsF]
              obtain ⟨hlitsE, hTCp⟩ :=
                ihTC (Arith.Expr.div acc f) rest1 e rest h haccf
              refine ⟨hlitsE, ?_⟩
              intro S out core0 pend0 hS hsplit0 hmp0
              rw [toRpnAux_op ['/'] rest0 (pend0 ++ S) (out ++ core0)
                  (by decide),
                popGePrec_mulPend ['/'] pend0 S (out ++ core0)
                  (Or.inr rfl) hmp0 hS]
              dsimp only
              have hout : out ++ core0 ++ pend0
                  = out ++ Arith.rpnOfExpr acc := by
                rw [hsplit0, List.append_assoc]
              rw [hout, hFp (['/'] :: S) (out ++ Arith.rpnOfExpr acc)]
              obtain ⟨core, pend, hsplit, hmp, heq⟩ :=
                hTCp S out (Arith.rpnOfExpr acc ++ Arith.rpnOfExpr f)
                  [['/']] hS (by rfl) (by decide)
              refine ⟨core, pend, hsplit, hmp, ?_⟩
              simpa [List.append_assoc] using heq
          · rw [if_neg hdiv] at h
            simp only [Option.some.injEq, Prod.mk.injEq] at h
            obtain ⟨he, hr⟩ := h
            subst he
            subst hr
            refine ⟨hacc, ?_⟩
            intro S out core0 pend0 hS hsplit0 hmp0
            exact ⟨core0, pend0, hsplit0, hmp0, rfl⟩
    · -- parseE
      intro ts e rest h
      simp only [Arith.parseE] at h
      cases hT : Arith.parseT n ts with
      | none =>
        rw [hT] at h
        exact Option.noConfusion h
      | some pr =>
        obtain ⟨tm, rest0⟩ := pr
        rw [hT] at h
        obtain ⟨hlitsT, hTp⟩ := ihT ts tm rest0 hT
        obtain ⟨hlitsE, hECp⟩ := ihEC tm rest0 e rest h hlitsT
        refine ⟨hlitsE, ?_⟩
        intro S out hS
        obtain ⟨coreT, pendT, hsplitT, hmpT, heqT⟩ :=
          hTp S out (stackTOK_of_EOK S hS)
        obtain ⟨core, pend, hsplit, hops, heq⟩ :=
          hECp S out coreT pendT hS hsplitT
            (opsPend_of_mulPend pendT hmpT)
        exact ⟨core, pend, hsplit, hops, heqT.trans heq⟩
    · -- parseEChain
      intro acc ts e rest h hacc
      cases ts with
      | nil =>
        simp only [Arith.parseEChain, Option.some.injEq,
          Prod.mk.injEq] at h
        obtain ⟨he, hr⟩ := h
        subst he
        subst hr
        refine ⟨hacc, ?_⟩
        intro S out core0 pend0 hS hsplit0 hops0
        exact ⟨core0, pend0, hsplit0, hops0, rfl⟩
      | cons t rest0 =>
        simp only [Arith.parseEChain] at h
        by_cases hadd : t = ['+']
        · rw [if_pos hadd] at h
          subst hadd
          cases hT : Arith.parseT n rest0 with
          | none =>
            rw [hT] at h
            exact Option.noConfusion h
          | some pr =>
            obtain ⟨tm, rest1⟩ := pr
            rw [hT] at h
            obtain ⟨hlitsT, hTp⟩ := ihT rest0 tm rest1 hT
            have hacct : Arith.litsOk (Arith.Expr.add acc tm) = true := by
              simp [Arith.litsOk, hacc, hlitsT]
            obtain ⟨hlitsE, hECp⟩ :=
              ihEC (Arith.Expr.add acc tm) rest1 e rest h hacct
            refine ⟨hlitsE, ?_⟩
            intro S out core0 pend0 hS hsplit0 hops0
            rw [toRpnAux_op ['+'] rest0 (pend0 ++ S) (out ++ core0)
                (by decide),
              popGePrec_addPend ['+'] (Or.inl rfl) pend0 S
                (out ++ core0) hops0 hS]
            dsimp only
            have hout : out ++ core0 ++ pend0
                = out ++ Arith.rpnOfExpr acc := by
              rw [hsplit0, List.append_assoc]
            rw [hout]
            obtain ⟨coreT, pendT, hsplitT, hmpT, heqT⟩ :=
              hTp (['+'] :: S) (out ++ Arith.rpnOfExpr acc) (by rfl)
            rw [heqT]
            obtain ⟨core, pend, hsplit, hops, heq⟩ :=
              hECp S out (Arith.rpnOfExpr acc ++ coreT)
                (pendT ++ [['+']]) hS
                (by simp [Arith.rpnOfExpr, hsplitT, List.append_assoc])
                (by
                  simp only [Arith.opsPend, List.all_append,
                    Bool.and_eq_true]
                  exact ⟨opsPend_of_mulPend pendT hmpT, by decide⟩)
            refine ⟨core, pend, hsplit, hops, ?_⟩
            simpa [List.append_assoc] using heq
        · rw [if_neg hadd] at h
          by_cases hsub : t = ['-']
          · rw [if_pos hsub] at h
            subst hsub
            cases hT : Arith.parseT n rest0 with
            | none =>
              rw [hT] at h
              exact Option.noConfusion h
            | some pr =>
              obtain ⟨tm, rest1⟩ := pr
              rw [hT] at h
              obtain ⟨hlitsT, hTp⟩ := ihT rest0 tm rest1 hT
              have hacct : Arith.litsOk (Arith.Expr.sub acc tm) = true := by
                simp [Arith.litsOk, hacc, hlitsT]
              obtain ⟨hlitsE, hECp⟩ :=
                ihEC (Arith.Expr.sub acc tm) rest1 e rest h hacct
              refine ⟨hlitsE, ?_⟩
              intro S out core0 pend0 hS hsplit0 hops0
              rw [toRpnAux_op ['-'] rest0 (pend0 ++ S) (out ++ core0)
                  (by decide),
                popGePrec_addPend ['-'] (Or.inr rfl) pend0 S
                  (out ++ core0) hops0 hS]
              dsimp only
              have hout : out ++ core0 ++ pend0
                  = out ++ Arith.rpnOfExpr acc := by
                rw [hsplit0, List.append_assoc]
              rw [hout]
              obtain ⟨coreT, pendT, hsplitT, hmpT, heqT⟩ :=
                hTp (['-'] :: S) (out ++ Arith.rpnOfExpr acc) (by rfl)
              rw [heqT]
              obtain ⟨core, pend, hsplit, hops, heq⟩ :=
                hECp S out (Arith.rpnOfExpr acc ++ coreT)
                  (pendT ++ [['-']]) hS
                  (by simp [Arith.rpnOfExpr, hsplitT, List.append_assoc])
                  (by
                    simp only [Arith.opsPend, List.all_append,
                      Bool.and_eq_true]
                    exact ⟨opsPend_of_mulPend pendT hmpT, by decide⟩)
              refine ⟨core, pend, hsplit, hops, ?_⟩
              simpa [List.append_assoc] using heq
          · rw [if_neg hsub] at h
            simp only [Option.some.injEq, Prod.mk.injEq] at h
            obtain ⟨he, hr⟩ := h
            subst he
            subst hr
            refine ⟨hacc, ?_⟩
            intro S out core0 pend0 hS hsplit0 hops0
            exact ⟨core0, pend0, hsplit0, hops0, rfl⟩

/-- A full parse drives the shunting yard to exactly the postorder
serialization of the parsed tree. -/
theorem toRpn_of_parse (ts : List (List Char)) (e : Arith.Expr)
    (h : Arith.parseE (4 * ts.length + 4) ts = some (e, [])) :
    Arith.litsOk e = true ∧ Arith.toRpn ts = some (Arith.rpnOfExpr e) := by
  obtain ⟨hlits, hEp⟩ := (shunt_master (4 * ts.length + 4)).2.2.2.1 ts e [] h
  refine ⟨hlits, ?_⟩
  obtain ⟨core, pend, hsplit, hops, heq⟩ := hEp [] [] rfl
  unfold Arith.toRpn
  rw [heq]
  simp only [Arith.toRpnAux, List.append_nil, List.nil_append]
  rw [flushAll_ops pend core hops, hsplit]

/-- Evaluating the postorder of a tree from an empty stack. -/
theorem evalRpn_of_expr (e : Arith.Expr) (hlits : Arith.litsOk e = true) :
    Arith.evalRpn (Arith.rpnOfExpr e)
      = (match Arith.evalExpr e with
         | Arith.JsNum.num v => some (Arith.JsNum.num v)
         | Arith.JsNum.nan =>
           if Arith.topZeroDiv e then some Arith.JsNum.nan else none) := by
  unfold Arith.evalRpn
  have h := evalRpnAux_spec e hlits [] []
  rw [List.append_nil] at h
  rw [h]
  cases hv : Arith.evalExpr e with
  | num v => rfl
  | nan =>
    by_cases htz : Arith.topZeroDiv e = true
    · rw [htz]
      simp [Arith.evalRpnAux]
    · rw [Bool.not_eq_true] at htz
      rw [htz]
      simp

theorem mem_dropWhile_of_neg (p : Char → Bool) :
    ∀ (l : List Char) (c : Char), c ∈ l → p c = false →
    c ∈ l.dropWhile p := by
  intro l
  induction l with
  | nil =>
    intro c hc _
    exact absurd hc (List.not_mem_nil c)
  | cons x rest ih =>
    intro c hc hp
    rw [List.dropWhile_cons]
    by_cases hx : p x = true
    · rw [if_pos hx]
      rcases List.mem_cons.mp hc with h | h
      · subst h
        rw [hp] at hx
        exact Bool.noConfusion hx
      · exact ih c h hp
    · rw [if_neg hx]
      exact hc

theorem mem_jsTrimList (cs : List Char) (c : Char) (hc : c ∈ cs)
    (hw : Str.isJsWs c = false) : c ∈ Str.jsTrimList cs := by
  unfold Str.jsTrimList
  rw [List.mem_reverse]
  refine mem_dropWhile_of_neg Str.isJsWs _ c ?_ hw
  rw [List.mem_reverse]
  exact mem_dropWhile_of_neg Str.isJsWs cs c hc hw

/-- A character outside the allowed class survives the trim and fails
the class test, so the evaluator returns none. -/
theorem safeEval_badChar (s : String) (c : Char) (hc : c ∈ s.data)
    (hbad : Arith.isClassChar c = false) :
    Arith.safeEvaluateExpression s = none := by
  have hw : Str.isJsWs c = false := by
    cases hww : Str.isJsWs c
    · rfl
    · exfalso
      have hcl : Arith.isClassChar c = true := by
        simp [Arith.isClassChar, hww]
      rw [hbad] at hcl
      exact Bool.noConfusion hcl
  have hmem : c ∈ (Str.jsTrim s).data := by
    show c ∈ Str.jsTrimList s.data
    exact mem_jsTrimList s.data c hc hw
  have hraw : ¬(Str.jsTrim s = "") := by
    intro h
    rw [h] at hmem
    exact absurd hmem (List.not_mem_nil c)
  have hall : (Str.jsTrim s).data.all Arith.isClassChar = false := by
    cases hb : (Str.jsTrim s).data.all Arith.isClassChar
    · rfl
    · exfalso
      have hcl := List.all_eq_true.mp hb c hmem
      rw [hbad] at hcl
      exact Bool.noConfusion hcl
  simp only [Arith.safeEvaluateExpression]
  rw [if_neg hraw, hall]
  simp

/-- When the trimmed input is in the character class and the spec-side
grammar parses its whitespace-free, unary-minus-expanded form, the
evaluator returns exactly the canonical tree's finite value, and none on
NaN. -/
theorem safeEval_of_specParse (s : String) (e : Arith.Expr)
    (hclass : (Str.jsTrim s).data.all Arith.isClassChar = true)
    (hp : Arith.specParse (Arith.expandUnaryMinus
        ((Str.jsTrim s).data.filter (fun c => !Str.isJsWs c))) = some e) :
    Arith.safeEvaluateExpression s
      = (match Arith.evalExpr e with
         | Arith.JsNum.num q => some q
         | Arith.JsNum.nan => none) := by
  by_cases hraw : Str.jsTrim s = ""
  · rw [hraw] at hp
    rw [show Arith.specParse (Arith.expandUnaryMinus
        (("" : String).data.filter (fun c => !Str.isJsWs c))) = none
      from rfl] at hp
    exact Option.noConfusion hp
  · simp only [Arith.safeEvaluateExpression]
    rw [if_neg hraw, hclass]
    simp only [Bool.not_true, Bool.false_eq_true, if_false]
    unfold Arith.specParse at hp
    cases htok : Arith.tokenizeExpression (Arith.expandUnaryMinus
        ((Str.jsTrim s).data.filter (fun c => !Str.isJsWs c))) with
    | none =>
      rw [htok] at hp
      exact Option.noConfusion hp
    | some ts =>
      rw [htok] at hp
      simp only [] at hp
      cases hpe : Arith.parseE (4 * ts.length + 4) ts with
      | none =>
        rw [hpe] at hp
        exact Option.noConfusion hp
      | some pr =>
        obtain ⟨e1, rem⟩ := pr
        cases rem with
        | cons t2 r2 =>
          rw [hpe] at hp
          simp only [] at hp
          exact Option.noConfusion hp
        | nil =>
          rw [hpe] at hp
          simp only [] at hp
          have he : e1 = e := by simpa using hp
          subst he
          obtain ⟨hlits, hrpn⟩ := toRpn_of_parse ts e1 hpe
          simp only []
          simp only [hrpn]
          rw [evalRpn_of_expr e1 hlits]
          cases hv : Arith.evalExpr e1 with
          | num q => simp
          | nan =>
            by_cases htz : Arith.topZeroDiv e1 = true
            · rw [htz]
              simp
            · rw [Bool.not_eq_true] at htz
              rw [htz]
              simp

/-- **C1**: the arithmetic evaluator. (1) Any character of the input
outside the class digits, `.`, whitespace, `+ - * / ( )` makes
`safeEvaluateExpression` return none. (2) When the trimmed input is in
the class and the canonical grammar (standard precedence, left
associativity, with a leading `-` and a `-` after `(` read as unary
minus) parses its whitespace-free expanded form to a tree, the evaluator
returns exactly that tree's value — the exact rational idealizing the
IEEE double — and none when the value is NaN, in particular for any
division by zero. (3) `simpleArithmeticSolver` only ever reports the
value the evaluator computed, so it never returns a false answer. -/
theorem C1_arithmetic_evaluator :
    (∀ (s : String) (c : Char), c ∈ s.data →
      Arith.isClassChar c = false →
      Arith.safeEvaluateExpression s = none) ∧
    (∀ (s : String) (e : Arith.Expr),
      (Str.jsTrim s).data.all Arith.isClassChar = true →
      Arith.specParse (Arith.expandUnaryMinus
        ((Str.jsTrim s).data.filter (fun c => !Str.isJsWs c))) = some e →
      Arith.safeEvaluateExpression s
        = (match Arith.evalExpr e with
           | Arith.JsNum.num q => some q
           | Arith.JsNum.nan => none)) ∧
    (∀ (fmt : ℚ → String) (s out : String),
      Arith.simpleArithmeticSolver fmt s = some out →
      ∃ q : ℚ, Arith.safeEvaluateExpression (Str.jsTrim s) = some q ∧
        out = "Thinking\n- (omitted by request)\n\nResult\n- "
          ++ (⟨(Str.jsTrim s).data.filter (fun c => !Str.isJsWs c)⟩ : String)
          ++ " = " ++ fmt q) := by
  refine ⟨fun s c hc hbad => safeEval_badChar s c hc hbad,
    fun s e hclass hp => safeEval_of_specParse s e hclass hp, ?_⟩
  intro fmt s out h
  simp only [Arith.simpleArithmeticSolver] at h
  by_cases hcl : Str.jsTrim s = ""
  · rw [if_pos hcl] at h
    exact Option.noConfusion h
  · rw [if_neg hcl] at h
    cases hac : (Str.jsTrim s).data.all Arith.isClassChar with
    | false =>
      rw [hac] at h
      simp at h
    | true =>
      rw [hac] at h
      simp only [Bool.not_true, Bool.false_eq_true, if_false] at h
      cases hse : Arith.safeEvaluateExpression (Str.jsTrim s) with
      | none =>
        rw [hse] at h
        exact Option.noConfusion h
      | some r =>
        rw [hse] at h
        simp only [Option.some.injEq] at h
        exact ⟨r, rfl, h.symm⟩

/-- **C1 witness**: `safeEvaluateExpression` rejects `"2a"` because of
the letter, and on `"2*(3+4)-5"` it returns the value of the canonical
tree `(2 * (3 + 4)) - 5`, via `C1_arithmetic_evaluator`; the solver's
answer on the same input reuses that value. -/
theorem C1_arithmetic_evaluator_witness :
    (Arith.isClassChar 'a' = false ∧
     Arith.safeEvaluateExpression "2a" = none) ∧
    (Arith.specParse (Arith.expandUnaryMinus
        ((Str.jsTrim "2*(3+4)-5").data.filter (fun c => !Str.isJsWs c)))
      = some (Arith.Expr.sub
          (Arith.Expr.mul (Arith.Expr.lit ['2'])
            (Arith.Expr.add (Arith.Expr.lit ['3']) (Arith.Expr.lit ['4'])))
          (Arith.Expr.lit ['5'])) ∧
     Arith.safeEvaluateExpression "2*(3+4)-5"
      = (match Arith.evalExpr (Arith.Expr.sub
          (Arith.Expr.mul (Arith.Expr.lit ['2'])
            (Arith.Expr.add (Arith.Expr.lit ['3']) (Arith.Expr.lit ['4'])))
          (Arith.Expr.lit ['5'])) with
         | Arith.JsNum.num q => some q
         | Arith.JsNum.nan => none)) ∧
    (Arith.simpleArithmeticSolver (fun _ => "9") "2*(3+4)-5"
        = some "Thinking\n- (omitted by request)\n\nResult\n- 2*(3+4)-5 = 9" ∧
     ∃ q : ℚ,
       Arith.safeEvaluateExpression (Str.jsTrim "2*(3+4)-5") = some q ∧
       "Thinking\n- (omitted by request)\n\nResult\n- 2*(3+4)-5 = 9"
         = "Thinking\n- (omitted by request)\n\nResult\n- "
           ++ (⟨(Str.jsTrim "2*(3+4)-5").data.filter
                (fun c => !Str.isJsWs c)⟩ : String)
           ++ " = " ++ (fun _ : ℚ => "9") q) := by
  refine ⟨⟨by decide,
      C1_arithmetic_evaluator.1 "2a" 'a' (by decide) (by decide)⟩,
    ⟨by decide,
      C1_arithmetic_evaluator.2.1 "2*(3+4)-5"
        (Arith.Expr.sub
          (Arith.Expr.mul (Arith.Expr.lit ['2'])
            (Arith.Expr.add (Arith.Expr.lit ['3']) (Arith.Expr.lit ['4'])))
          (Arith.Expr.lit ['5'])) (by decide) (by decide)⟩,
    by decide,
    C1_arithmetic_evaluator.2.2 (fun _ => "9") "2*(3+4)-5"
      "Thinking\n- (omitted by request)\n\nResult\n- 2*(3+4)-5 = 9"
      (by decide)⟩

/-- **C4 counterexample**: `"how are you"` satisfies
`isInstantConversationPrompt`, but it is also a vague followup; with an
assistant message in the history the handler rewrites the prompt with
conversation context before the trivial/instant check, every local
solver misses, and the request goes to the simple-QA backend call — a
backend LM generate call despite the instant prompt. -/
theorem C4_local_dispatch_counterexample :
    Srv.isInstantConversationPrompt "how are you" = true ∧
    Srv.wsDispatch (fun _ => none) (fun _ _ => false) (fun _ => none)
      "how are you" (some "how are you")
      [⟨"assistant", "Result: it rains due to condensation"⟩]
      = Srv.Decision.coreFastBackend := by
  constructor
  · decide
  · decide

/-- **C4 (amended)**: the trivial/instant guarantee holds for the prompt
the dispatch check actually sees — the prompt after the vague-followup
context rewrite, the `userPrompt` override and `normalizeUserPrompt`.
If that effective prompt is trivial or instant, the request is answered
locally: the dispatch never reaches the fast backend call or the full
pipeline. -/
theorem C4_local_dispatch (pd : String → Option Int)
    (rc : String → String → Bool) (tssm : String → Option ℚ)
    (pp : String) (pup : Option String) (hist : List Srv.Msg)
    (h : Srv.isTrivialMessage (Srv.effectivePrompt pp pup hist) = true ∨
      Srv.isInstantConversationPrompt (Srv.effectivePrompt pp pup hist) = true) :
    Srv.wsDispatch pd rc tssm pp pup hist ≠ Srv.Decision.coreFastBackend ∧
    Srv.wsDispatch pd rc tssm pp pup hist ≠ Srv.Decision.fullPipeline := by
  unfold Srv.wsDispatch
  by_cases h1 : Str.jsTrim pp = ""
  · rw [if_pos h1]
    exact ⟨fun heq => Srv.Decision.noConfusion heq,
      fun heq => Srv.Decision.noConfusion heq⟩
  · rw [if_neg h1]
    by_cases h2 : Srv.followupHit tssm pp hist = true
    · rw [if_pos h2]
      exact ⟨fun heq => Srv.Decision.noConfusion heq,
        fun heq => Srv.Decision.noConfusion heq⟩
    · rw [if_neg h2]
      cases hs : Srv.tryLocalSolvers pd rc (Srv.dispatchState pp pup hist).2 with
      | some name =>
        exact ⟨fun heq => Srv.Decision.noConfusion heq,
          fun heq => Srv.Decision.noConfusion heq⟩
      | none =>
        simp only []
        have he : Srv.effectivePrompt pp pup hist
            = (Srv.dispatchState pp pup hist).1 := rfl
        rw [he] at h
        have hti : (Srv.isTrivialMessage (Srv.dispatchState pp pup hist).1
            || Srv.isInstantConversationPrompt
              (Srv.dispatchState pp pup hist).1) = true := by
          rcases h with h | h <;> simp [h]
        simp only [hti, if_true]
        exact ⟨fun heq => Srv.Decision.noConfusion heq,
          fun heq => Srv.Decision.noConfusion heq⟩

/-- **C4 witness**: `"thanks"` with no history and no override is
trivial at the dispatch check, and the dispatch indeed avoids both
backend paths — via `C4_local_dispatch`. -/
theorem C4_local_dispatch_witness :
    Srv.isTrivialMessage (Srv.effectivePrompt "thanks" none []) = true ∧
    (Srv.wsDispatch (fun _ => none) (fun _ _ => false) (fun _ => none)
        "thanks" none [] ≠ Srv.Decision.coreFastBackend ∧
      Srv.wsDispatch (fun _ => none) (fun _ _ => false) (fun _ => none)
        "thanks" none [] ≠ Srv.Decision.fullPipeline) :=
  ⟨by decide,
   C4_local_dispatch (fun _ => none) (fun _ _ => false) (fun _ => none)
     "thanks" none [] (Or.inl (by decide))⟩

theorem lowerChar_ne_backslash (c : Char) (h : c ≠ '\\') :
    Str.lowerChar c ≠ '\\' := by
  unfold Str.lowerChar
  by_cases hc : ('A' ≤ c && c ≤ 'Z') = true
  · simp only [hc, if_pos]
    intro he
    simp only [Bool.and_eq_true, decide_eq_true_eq] at hc
    have h1 : 65 ≤ c.toNat := by
      have h3 : ('A').val.toNat ≤ c.val.toNat := by
        have := hc.1
        rw [Char.le_def] at this
        exact this
      simpa using h3
    have h1b : c.toNat ≤ 90 := by
      have h3 : c.val.toNat ≤ ('Z').val.toNat := by
        have := hc.2
        rw [Char.le_def] at this
        exact this
      simpa using h3
    have hv : (c.toNat + 32).isValidChar := by left; omega
    have ht : (Char.ofNat (c.toNat + 32)).toNat = c.toNat + 32 := by
      simp [Char.ofNat, hv]
      rfl
    rw [he] at ht
    have hbs : ('\\').toNat = 92 := by decide
    omega
  · simp only [hc, if_neg, if_false]
    exact h

theorem cleanChars_no_backslash (text : String)
    (h : ∀ c ∈ text.data, c ≠ '\\') :
    ∀ c ∈ Mem.cleanChars text, c ≠ '\\' := by
  intro c hc
  unfold Mem.cleanChars Mem.normalize Str.lowerStr at hc
  simp only [List.map_map, List.mem_map] at hc
  rcases hc with ⟨c0, hc0, heq⟩
  subst heq
  simp only [Function.comp]
  by_cases hk : Mem.keepChar (Str.lowerChar c0) = true
  · simp only [hk, if_pos]
    exact lowerChar_ne_backslash c0 (h c0 hc0)
  · rw [Bool.not_eq_true] at hk
    rw [hk]
    simp

theorem splitBackslashSAux_no_delim (cs acc : List Char)
    (h : ∀ c ∈ cs, c ≠ '\\') :
    Mem.splitBackslashSAux cs acc = [acc.reverse ++ cs] := by
  induction cs generalizing acc with
  | nil => simp [Mem.splitBackslashSAux]
  | cons c rest ih =>
    unfold Mem.splitBackslashSAux
    have hc : c ≠ '\\' := h c (List.mem_cons_self c rest)
    have hcond : (c = '\\' && rest.takeWhile (fun d => d = 's') ≠ []) = false := by
      simp [hc]
    rw [hcond]
    simp only [if_false, Bool.false_eq_true]
    rw [ih (c :: acc) (fun d hd => h d (List.mem_cons_of_mem c hd))]
    simp

theorem tokenize_len_le_one (text : String)
    (h : ∀ c ∈ text.data, c ≠ '\\') :
    (Mem.tokenize text).length ≤ 1 := by
  unfold Mem.tokenize
  rw [splitBackslashSAux_no_delim _ [] (cleanChars_no_backslash text h)]
  simp only [List.reverse_nil, List.nil_append, List.length_map]
  cases hq : Mem.cleanChars text with
  | nil => simp
  | cons a l => simp [List.filter]

theorem extractKeywords_len_le_one (text : String)
    (h : ∀ c ∈ text.data, c ≠ '\\') :
    (Mem.extractKeywords text).length ≤ 1 := by
  unfold Mem.extractKeywords
  have h1 := tokenize_len_le_one text h
  have h2 : ((Mem.tokenize text).filter
      (fun w => 3 ≤ w.length && !Mem.STOP_WORDS.contains w)).length ≤ 1 :=
    le_trans (List.length_filter_le _ _) h1
  have h3 := List.Sublist.length_le (List.dedup_sublist
    ((Mem.tokenize text).filter
      (fun w => 3 ≤ w.length && !Mem.STOP_WORDS.contains w)))
  have h4 : ((((Mem.tokenize text).filter
      (fun w => 3 ≤ w.length && !Mem.STOP_WORDS.contains w)).dedup).take
        40).length ≤ (((Mem.tokenize text).filter
      (fun w => 3 ≤ w.length && !Mem.STOP_WORDS.contains w)).dedup).length := by
    rw [List.length_take]
    exact Nat.min_le_right _ _
  omega

theorem scoreEntry_no_embedding_le (sqrt : ℚ → ℚ) (e : Mem.MemoryEntry)
    (tokens : List String) (opts : Mem.QueryOpts)
    (hemb : opts.embedding = none) :
    Mem.scoreEntry sqrt e tokens opts ≤ (tokens.length : ℚ) := by
  unfold Mem.scoreEntry
  rw [hemb]
  exact_mod_cast Nat.cast_le.mpr (List.length_filter_le _ _)

/-- **C10.** The memory store's `tokenize` splits on the literal
two-character sequence backslash-`s` (the regex `/\\s+/`), not on
whitespace, so a backslash-free text yields at most one keyword; hence a
query without backslashes and without a query embedding can score at most
1 < MIN_SCORE = 2 against any entry, and `queryMemoryEntries` returns the
empty list. -/
theorem C10_backslash_tokenize :
    (∀ text : String, (∀ c ∈ text.data, c ≠ '\\') →
        (Mem.extractKeywords text).length ≤ 1) ∧
    (∀ (sqrt : ℚ → ℚ) (dateParse : String → Option Int) (now : Int)
        (entries : List Mem.MemoryEntry) (query : String) (limit : Nat)
        (opts : Mem.QueryOpts),
        (∀ c ∈ query.data, c ≠ '\\') → opts.embedding = none →
        Mem.queryMemoryEntries sqrt dateParse now entries query limit opts
          = []) := by
  constructor
  · exact extractKeywords_len_le_one
  · intro sqrt dateParse now entries query limit opts hq hemb
    unfold Mem.queryMemoryEntries
    by_cases ht : (Mem.extractKeywords query).isEmpty
    · simp [ht]
    · simp only [ht, if_neg, if_false, Bool.false_eq_true]
      have hkept : ∀ p ∈ ((Mem.filterEntriesForUser entries opts.userId
          opts.teamMode opts.teamId).filter
            (fun e => !Mem.isExpired dateParse now e)).map
          (fun e => (e, Mem.scoreEntry sqrt e (Mem.extractKeywords query) opts)),
          ¬(Mem.MIN_SCORE ≤ p.2) := by
        intro p hp
        rcases List.mem_map.mp hp with ⟨e, _, heq⟩
        subst heq
        have hle := scoreEntry_no_embedding_le sqrt e
          (Mem.extractKeywords query) opts hemb
        have hlen := extractKeywords_len_le_one query hq
        have hcast : ((Mem.extractKeywords query).length : ℚ) ≤ 1 := by
          exact_mod_cast hlen
        unfold Mem.MIN_SCORE
        intro habs
        linarith
      have : (((Mem.filterEntriesForUser entries opts.userId opts.teamMode
          opts.teamId).filter (fun e => !Mem.isExpired dateParse now e)).map
          (fun e => (e, Mem.scoreEntry sqrt e (Mem.extractKeywords query)
            opts))).filter (fun p => decide (Mem.MIN_SCORE ≤ p.2)) = [] := by
        apply List.filter_eq_nil_iff.mpr
        intro p hp
        simpa using hkept p hp
      rw [this]
      simp [Mem.sortByScoreDesc]

/-- **C10 witness**: concrete backslash-free query returns nothing even
against an entry sharing its keyword. -/
theorem C10_backslash_tokenize_witness :
    (Mem.extractKeywords "hello world").length ≤ 1 ∧
    Mem.queryMemoryEntries (fun q => q) (fun _ => none) 0
      [Mem.sampleExpired] "hello world" 4 ⟨none, false, none, none, none⟩
      = [] :=
  ⟨C10_backslash_tokenize.1 "hello world" (by decide),
   C10_backslash_tokenize.2 (fun q => q) (fun _ => none) 0
     [Mem.sampleExpired] "hello world" 4 ⟨none, false, none, none, none⟩
     (by decide) rfl⟩

end BAAI
